import Mathlib

/-!
azfunc-ephemeral-twitter: the retention pass of `handler.go`.

A shallow embedding of `src/handler.go`.

* The Twitter client (`TwitterAPIClient`) and the wall clock are the outside
  world.  The world has a state of an arbitrary type `σ`; every client method
  and every clock reading is a function on that state, so a client may change
  its answers from one call to the next and time may pass between any two
  readings.
* Every function of the handler that talks to the client returns a `Res`:
  its value, the client calls it made (in order) and the state it leaves.
* A Go result `(value, err)` is a pair `value × Option Error`; `none` is `nil`.
* `log.Print` only writes to the log: it touches neither the client nor a
  variable of the program, and is left out.
* The environment of the process is a function from names to values; a panic
  of `getenv` is the error of `Except`, and the package variables are the
  record `Globals`.
* Of the Go library, `strings.Split` is taken on the characters of the string,
  and the set of strings `time.ParseDuration` accepts is a parameter.
-/

namespace Ephemeral

/-! ## Library types -/

/-- Go `error` values. -/
abbrev Error := String

/-- A `time.Time`, as nanoseconds since the Unix epoch. -/
abbrev Time := Int

/-- A `time.Duration`: a count of nanoseconds (an int64 in Go). -/
abbrev Duration := Int

/-- Smallest `time.Duration`. -/
def minDuration : Duration := -(2 ^ 63)

/-- Largest `time.Duration`. -/
def maxDuration : Duration := 2 ^ 63 - 1

/-- `t.Sub(u)` of package time: the difference `t - u`, saturated to the
range of a `Duration`. -/
def Time.Sub (t u : Time) : Duration :=
  if t - u < minDuration then minDuration
  else if maxDuration < t - u then maxDuration
  else t - u

/-- `url.Values`, as the key/value pairs in the order they were added (a nil
map is the empty list). -/
abbrev Values := List (String × String)

/-- `v.Add(key, value)`. -/
def Values.Add (v : Values) (key value : String) : Values :=
  v ++ [(key, value)]

/-- `strconv.FormatInt(id, 10)`: the decimal string of an integer. -/
def FormatInt (id : Int) : String :=
  toString id

/-- The fields of `anaconda.Tweet` the handler reads.  `CreatedAt` holds the
outcome of parsing the tweet's creation string (`time.Parse(time.RubyDate, _)`,
which is what `CreatedAtTime` does): `none` when the string does not parse. -/
structure Tweet where
  Id : Int
  CreatedAt : Option Time
  Text : String
  InReplyToStatusID : Int
deriving DecidableEq, Repr, Inhabited

/-- `tweet.CreatedAtTime()`: the creation time, or `none` for a parse error. -/
def Tweet.CreatedAtTime (t : Tweet) : Option Time :=
  t.CreatedAt

/-- The field of `anaconda.User` the handler reads. -/
structure User where
  ScreenName : String
deriving DecidableEq, Repr, Inhabited

/-- The field of `anaconda.SearchResponse` the handler reads. -/
structure SearchResponse where
  Statuses : List Tweet
deriving DecidableEq, Repr, Inhabited

/-- The interface `TwitterAPIClient`, over a world state `σ`. -/
structure TwitterAPIClient (σ : Type) where
  GetSelf : Values → σ → (User × Option Error) × σ
  GetUserTimeline : Values → σ → (List Tweet × Option Error) × σ
  GetSearch : String → Values → σ → (SearchResponse × Option Error) × σ
  DeleteTweet : Int → Bool → σ → (Tweet × Option Error) × σ

/-- A call made on the client, with its arguments. -/
inductive Call where
  | GetSelf (v : Values)
  | GetUserTimeline (v : Values)
  | GetSearch (queryString : String) (v : Values)
  | DeleteTweet (id : Int) (trimUser : Bool)
deriving DecidableEq, Repr

/-- What a function of the handler leaves behind: its value, the client calls
it made, and the state of the world afterwards. -/
structure Res (α σ : Type) where
  val : α
  calls : List Call
  st : σ

/-- `time.Since(t)` for a parsed time `t` (no monotonic reading): one reading
of the clock, minus `t`. -/
def timeSince {σ : Type} (clock : σ → Time × σ) (t : Time) (s : σ) : Duration × σ :=
  (Time.Sub (clock s).1 t, (clock s).2)

/-- The environment of the process: for each name, the value of the variable
when it is set. -/
abbrev Environ := String → Option String

/-- `os.Getenv(name)`: the value of the variable, the empty string when it is
not set. -/
def osGetenv (env : Environ) (name : String) : String :=
  (env name).getD ""

/-- `strings.Split(s, sep)` for a separator of one character: the pieces of `s`
between the occurrences of `sep`, in order (one piece more than there are
occurrences). -/
def stringsSplit (s : String) (sep : Char) : List String :=
  (s.data.splitOn sep).map String.mk

/-- `time.ParseDuration(s)`.  Which strings are durations, and which duration
each one is, is given by `parse` (`none` for a string the library rejects);
with every error the library returns the duration 0. -/
def ParseDuration (parse : String → Option Duration) (s : String) : Duration × Option Error :=
  match parse s with
  | some d => (d, none)
  | none => (0, some ("time: invalid duration " ++ s))

/-! ## The handler -/

/-- The package variables that `setVariables` assigns. -/
structure Globals where
  consumerKey : String
  consumerSecret : String
  accessToken : String
  accessTokenSecret : String
  maxTweetAge : String
  interactionTimeout : String
  whitelist : List String
deriving DecidableEq, Repr

/-- `getenv`: the value of a required variable; the panic is the error, with
its message. -/
def getenv (env : Environ) (name : String) : Except String String :=
  let v := osGetenv env name
  if v = "" then Except.error ("Missing required environment variable " ++ name)
  else Except.ok v

/-- `getWhitelist`. -/
def getWhitelist (whiteList : String) : List String :=
  if whiteList = "" then [] else stringsSplit whiteList ':'

/-- `setVariables`: the values it assigns, or the message of the first panic. -/
def setVariables (env : Environ) : Except String Globals :=
  match getenv env "TWITTER_CONSUMER_KEY" with
  | Except.error msg => Except.error msg
  | Except.ok consumerKey =>
  match getenv env "TWITTER_CONSUMER_SECRET" with
  | Except.error msg => Except.error msg
  | Except.ok consumerSecret =>
  match getenv env "TWITTER_ACCESS_TOKEN" with
  | Except.error msg => Except.error msg
  | Except.ok accessToken =>
  match getenv env "TWITTER_ACCESS_TOKEN_SECRET" with
  | Except.error msg => Except.error msg
  | Except.ok accessTokenSecret =>
  match getenv env "MAX_TWEET_AGE" with
  | Except.error msg => Except.error msg
  | Except.ok maxTweetAge =>
  match getenv env "TWEET_INTERACTION_TIMEOUT" with
  | Except.error msg => Except.error msg
  | Except.ok interactionTimeout =>
    Except.ok ⟨consumerKey, consumerSecret, accessToken, accessTokenSecret, maxTweetAge,
      interactionTimeout, getWhitelist (osGetenv env "WHITELIST")⟩


/-- `getTimeline`. -/
def getTimeline {σ : Type} (api : TwitterAPIClient σ) (s : σ) :
    Res (List Tweet × Option Error) σ :=
  let args := (Values.Add (Values.Add [] "count" "200") "include_rts" "true")
  let r := api.GetUserTimeline args s
  match r.1.2 with
  | some err => ⟨([], some err), [Call.GetUserTimeline args], r.2⟩
  | none => ⟨(r.1.1, none), [Call.GetUserTimeline args], r.2⟩

/-- One turn of the filtering loop of `getRepliesForTweet`.  `acc.1` is the
backing array shared by `searchResponse.Statuses` and `replies`, `acc.2` is
`len(replies)`; `append` writes cell `acc.2` of that array. -/
def filterStep (tweetID : Int) (acc : List Tweet × Nat) (i : Nat) : List Tweet × Nat :=
  match acc.1[i]? with
  | none => acc
  | some t =>
    if t.InReplyToStatusID = tweetID then (acc.1.set acc.2 t, acc.2 + 1) else acc

/-- The filtering loop of `getRepliesForTweet`: `replies` starts as
`Statuses[:0]` and is appended to while `i` ranges over `Statuses`. -/
def filterReplies (tweetID : Int) (statuses : List Tweet) : List Tweet :=
  let r := (List.range statuses.length).foldl (filterStep tweetID) (statuses, 0)
  r.1.take r.2

/-- `getRepliesForTweet`. -/
def getRepliesForTweet {σ : Type} (api : TwitterAPIClient σ) (tweetID : Int) (s : σ) :
    Res (List Tweet) σ :=
  let args := (Values.Add (Values.Add [] "count" "200") "since_id" (FormatInt tweetID))
  let me := api.GetSelf [] s
  match me.1.2 with
  | some _ => ⟨[], [Call.GetSelf []], me.2⟩
  | none =>
    let queryString := "to:" ++ me.1.1.ScreenName
    let searchResponse := api.GetSearch queryString args me.2
    match searchResponse.1.2 with
    | some _ => ⟨[], [Call.GetSelf [], Call.GetSearch queryString args], searchResponse.2⟩
    | none =>
      ⟨filterReplies tweetID searchResponse.1.1.Statuses,
        [Call.GetSelf [], Call.GetSearch queryString args], searchResponse.2⟩

/-- `isWhitelisted`, with the global `whitelist` as a parameter. -/
def isWhitelisted (whitelist : List String) (id : Int) : Bool :=
  match whitelist with
  | [] => false
  | w :: ws => if w = FormatInt id then true else isWhitelisted ws id

/-- The loop of `hasOngoingInteractions` over the replies. -/
def repliesLoop {σ : Type} (clock : σ → Time × σ) (interactionAgeLimit : Duration) :
    List Tweet → σ → Bool × σ
  | [], s => (false, s)
  | reply :: rest, s =>
    match reply.CreatedAtTime with
    | none => repliesLoop clock interactionAgeLimit rest s
    | some createdTime =>
      let since := timeSince clock createdTime s
      if since.1 < interactionAgeLimit then (true, since.2)
      else repliesLoop clock interactionAgeLimit rest since.2

/-- `hasOngoingInteractions`. -/
def hasOngoingInteractions {σ : Type} (clock : σ → Time × σ) (api : TwitterAPIClient σ)
    (tweetID : Int) (interactionAgeLimit : Duration) (s : σ) : Res Bool σ :=
  let replies := getRepliesForTweet api tweetID s
  let r := repliesLoop clock interactionAgeLimit replies.val replies.st
  ⟨r.1, replies.calls, r.2⟩

/-- The body of the loop of `deleteFromTimeline`, for one timeline entry. -/
def deleteStep {σ : Type} (clock : σ → Time × σ) (whitelist : List String)
    (api : TwitterAPIClient σ) (tweetAgeLimit interactionAgeLimit : Duration)
    (tweet : Tweet) (s : σ) : Res Unit σ :=
  match tweet.CreatedAtTime with
  | none => ⟨(), [], s⟩
  | some createdTime =>
    let since := timeSince clock createdTime s
    if since.1 > tweetAgeLimit then
      if isWhitelisted whitelist tweet.Id then ⟨(), [], since.2⟩
      else
        let ongoing := hasOngoingInteractions clock api tweet.Id interactionAgeLimit since.2
        if ongoing.val then ⟨(), ongoing.calls, ongoing.st⟩
        else
          let deleted := api.DeleteTweet tweet.Id true ongoing.st
          ⟨(), ongoing.calls ++ [Call.DeleteTweet tweet.Id true], deleted.2⟩
    else ⟨(), [], since.2⟩

/-- The loop of `deleteFromTimeline` over the timeline. -/
def deleteLoop {σ : Type} (clock : σ → Time × σ) (whitelist : List String)
    (api : TwitterAPIClient σ) (tweetAgeLimit interactionAgeLimit : Duration) :
    List Tweet → σ → Res Unit σ
  | [], s => ⟨(), [], s⟩
  | tweet :: rest, s =>
    let step := deleteStep clock whitelist api tweetAgeLimit interactionAgeLimit tweet s
    let more := deleteLoop clock whitelist api tweetAgeLimit interactionAgeLimit rest step.st
    ⟨(), step.calls ++ more.calls, more.st⟩

/-- `deleteFromTimeline`. -/
def deleteFromTimeline {σ : Type} (clock : σ → Time × σ) (whitelist : List String)
    (api : TwitterAPIClient σ) (tweetAgeLimit interactionAgeLimit : Duration) (s : σ) :
    Res Unit σ :=
  let timeline := getTimeline api s
  let loop := deleteLoop clock whitelist api tweetAgeLimit interactionAgeLimit
    timeline.val.1 timeline.st
  ⟨(), timeline.calls ++ loop.calls, loop.st⟩

/-- `ephemeral`, the trigger handler.  `NewTwitterApi` builds the client from
the four credentials (consumer key and secret, access token and secret). -/
def ephemeral {σ : Type} (NewTwitterApi : String → String → String → String → TwitterAPIClient σ)
    (parse : String → Option Duration) (clock : σ → Time × σ) (g : Globals) (s : σ) :
    Res Unit σ :=
  let api := NewTwitterApi g.consumerKey g.consumerSecret g.accessToken g.accessTokenSecret
  let tweetAgeLimit := (ParseDuration parse g.maxTweetAge).1
  let interactionAgeLimit := (ParseDuration parse g.interactionTimeout).1
  deleteFromTimeline clock g.whitelist api tweetAgeLimit interactionAgeLimit s

/-! ## Notions the properties are stated with -/

/-- The replies to `tweetID` among the statuses of a search, in their order. -/
def repliesTo (tweetID : Int) (statuses : List Tweet) : List Tweet :=
  statuses.filter (fun r => decide (r.InReplyToStatusID = tweetID))

/-- The identifiers passed to `DeleteTweet` in a sequence of calls, in order. -/
def deletedIds : List Call → List Int
  | [] => []
  | Call.DeleteTweet id _ :: cs => id :: deletedIds cs
  | Call.GetSelf _ :: cs => deletedIds cs
  | Call.GetUserTimeline _ :: cs => deletedIds cs
  | Call.GetSearch _ _ :: cs => deletedIds cs

/-- The elapsed time of each reply with a parsable timestamp, measured at the
reply's turn in the loop of `hasOngoingInteractions`: the clock is read once
per such reply, in order, from state `s` on. -/
def replyAges {σ : Type} (clock : σ → Time × σ) : List Tweet → σ → List (Tweet × Duration)
  | [], _ => []
  | reply :: rest, s =>
    match reply.CreatedAtTime with
    | none => replyAges clock rest s
    | some createdTime =>
      (reply, (timeSince clock createdTime s).1) ::
        replyAges clock rest (timeSince clock createdTime s).2

/-- The answer of the reply search that `getRepliesForTweet` issues for
`tweetID` from state `s`, once `GetSelf` has answered. -/
def replySearch {σ : Type} (api : TwitterAPIClient σ) (tweetID : Int) (s : σ) :
    (SearchResponse × Option Error) × σ :=
  api.GetSearch ("to:" ++ (api.GetSelf [] s).1.1.ScreenName)
    [("count", "200"), ("since_id", FormatInt tweetID)] (api.GetSelf [] s).2

/-- The state of the world when the loop of `deleteFromTimeline`, started by a
pass from state `s`, has gone through the entries `pre`. -/
def entryState {σ : Type} (clock : σ → Time × σ) (whitelist : List String)
    (api : TwitterAPIClient σ) (tweetAgeLimit interactionAgeLimit : Duration)
    (pre : List Tweet) (s : σ) : σ :=
  (deleteLoop clock whitelist api tweetAgeLimit interactionAgeLimit pre (getTimeline api s).st).st

/-- The turn of the loop of `deleteFromTimeline` for the entry `tweet` that
follows the entries `pre`, in a pass started from state `s`. -/
def entryTurn {σ : Type} (clock : σ → Time × σ) (whitelist : List String)
    (api : TwitterAPIClient σ) (tweetAgeLimit interactionAgeLimit : Duration)
    (pre : List Tweet) (tweet : Tweet) (s : σ) : Res Unit σ :=
  deleteStep clock whitelist api tweetAgeLimit interactionAgeLimit tweet
    (entryState clock whitelist api tweetAgeLimit interactionAgeLimit pre s)

/-- The client `api` with other answers from `DeleteTweet`: the tweet and the
error it returns are given by `outcome`, its effect on the world is kept. -/
def withDeleteOutcome {σ : Type} (api : TwitterAPIClient σ)
    (outcome : Int → Bool → σ → Tweet × Option Error) : TwitterAPIClient σ where
  GetSelf := api.GetSelf
  GetUserTimeline := api.GetUserTimeline
  GetSearch := api.GetSearch
  DeleteTweet := fun id trimUser s => (outcome id trimUser s, (api.DeleteTweet id trimUser s).2)

/-- The variables `setVariables` requires, in the order it reads them. -/
def requiredVariables : List String :=
  ["TWITTER_CONSUMER_KEY", "TWITTER_CONSUMER_SECRET", "TWITTER_ACCESS_TOKEN",
    "TWITTER_ACCESS_TOKEN_SECRET", "MAX_TWEET_AGE", "TWEET_INTERACTION_TIMEOUT"]

/-- The number of `GetSelf` calls in a sequence of calls. -/
def selfCalls : List Call → Nat
  | [] => 0
  | Call.GetSelf _ :: cs => selfCalls cs + 1
  | Call.GetUserTimeline _ :: cs => selfCalls cs
  | Call.GetSearch _ _ :: cs => selfCalls cs
  | Call.DeleteTweet _ _ :: cs => selfCalls cs

/-- The number of `GetSearch` calls in a sequence of calls. -/
def searchCalls : List Call → Nat
  | [] => 0
  | Call.GetSearch _ _ :: cs => searchCalls cs + 1
  | Call.GetSelf _ :: cs => searchCalls cs
  | Call.GetUserTimeline _ :: cs => searchCalls cs
  | Call.DeleteTweet _ _ :: cs => searchCalls cs

/-- Whether an entry evaluated from state `s` is old enough and not
whitelisted: its timestamp parses, its elapsed time read from `s` is strictly
greater than `tweetAgeLimit`, and `isWhitelisted` is false. -/
def oldAndUnlisted {σ : Type} (clock : σ → Time × σ) (whitelist : List String)
    (tweetAgeLimit : Duration) (tweet : Tweet) (s : σ) : Bool :=
  match tweet.CreatedAtTime with
  | none => false
  | some t => decide (tweetAgeLimit < (timeSince clock t s).1) && !isWhitelisted whitelist tweet.Id

/-- The number of entries of `timeline` that are old enough and not
whitelisted, each one evaluated in the state the loop has reached at its turn. -/
def oldAndUnlistedCount {σ : Type} (clock : σ → Time × σ) (whitelist : List String)
    (api : TwitterAPIClient σ) (tweetAgeLimit interactionAgeLimit : Duration) :
    List Tweet → σ → Nat
  | [], _ => 0
  | tweet :: rest, s =>
    (if oldAndUnlisted clock whitelist tweetAgeLimit tweet s then 1 else 0) +
      oldAndUnlistedCount clock whitelist api tweetAgeLimit interactionAgeLimit rest
        (deleteStep clock whitelist api tweetAgeLimit interactionAgeLimit tweet s).st

/-- Whether an entry evaluated from state `s` is delete-eligible: its
timestamp parses, its elapsed time read from `s` is strictly greater than
`tweetAgeLimit`, `isWhitelisted` is false, and `hasOngoingInteractions`, run
after that reading of the clock, is false. -/
def deleteEligible {σ : Type} (clock : σ → Time × σ) (whitelist : List String)
    (api : TwitterAPIClient σ) (tweetAgeLimit interactionAgeLimit : Duration)
    (tweet : Tweet) (s : σ) : Bool :=
  match tweet.CreatedAtTime with
  | none => false
  | some t =>
    decide (tweetAgeLimit < (timeSince clock t s).1) && !isWhitelisted whitelist tweet.Id &&
      !(hasOngoingInteractions clock api tweet.Id interactionAgeLimit (timeSince clock t s).2).val

/-- The identifiers of the entries of `timeline` that are delete-eligible, in
the order of the timeline, each entry evaluated in the state the world is in
when all the entries before it have had their turn. -/
def eligibleIds {σ : Type} (clock : σ → Time × σ) (whitelist : List String)
    (api : TwitterAPIClient σ) (tweetAgeLimit interactionAgeLimit : Duration) :
    List Tweet → σ → List Int
  | [], _ => []
  | tweet :: rest, s =>
    (if deleteEligible clock whitelist api tweetAgeLimit interactionAgeLimit tweet s
      then [tweet.Id] else []) ++
      eligibleIds clock whitelist api tweetAgeLimit interactionAgeLimit rest
        (deleteStep clock whitelist api tweetAgeLimit interactionAgeLimit tweet s).st

/-! ## Fixtures for the examples -/

/-- One minute, one hour and one day, in nanoseconds. -/
def minute : Duration := 60 * 1000000000

/-- One hour in nanoseconds. -/
def hour : Duration := 60 * minute

/-- One day in nanoseconds. -/
def day : Duration := 24 * hour

/-- The reading of the clock in the examples. -/
def epoch : Time := 20000 * day

/-- A clock that stands still at `epoch`. -/
def fixedClock : Unit → Time × Unit :=
  fun s => (epoch, s)

/-- A client without state: it answers `GetUserTimeline` with `timeline`,
`GetSelf` with the user `me`, `GetSearch` with `statuses`, and `DeleteTweet`
with success. -/
def fixedClient (timeline : List Tweet × Option Error) (statuses : List Tweet) :
    TwitterAPIClient Unit where
  GetSelf := fun _ s => ((⟨"me"⟩, none), s)
  GetUserTimeline := fun _ s => (timeline, s)
  GetSearch := fun _ _ s => ((⟨statuses⟩, none), s)
  DeleteTweet := fun _ _ s => ((default, none), s)

/-- A post with identifier `id` created `age` before `epoch`. -/
def postAged (id : Int) (age : Duration) : Tweet :=
  ⟨id, some (epoch - age), "old", 0⟩

/-- A reply to post `parent`, created `age` before `epoch`. -/
def replyAged (id parent : Int) (age : Duration) : Tweet :=
  ⟨id, some (epoch - age), "reply", parent⟩

/-- Post 1, ten days old. -/
def oldPost : Tweet := postAged 1 (10 * day)

/-- The timeline is post 1, ten days old; the search finds nothing. -/
def quietClient : TwitterAPIClient Unit :=
  fixedClient ([oldPost], none) []

/-- The timeline is post 1, ten days old; the search finds a reply to it that
is ten minutes old. -/
def repliedClient : TwitterAPIClient Unit :=
  fixedClient ([oldPost], none) [replyAged 9 1 (10 * minute)]

/-- The timeline is post 1, ten days old; the search finds two replies to it,
one exactly an hour old and one three days old, and a reply to another post. -/
def staleClient : TwitterAPIClient Unit :=
  fixedClient ([oldPost], none) [replyAged 9 1 hour, replyAged 7 2 minute, replyAged 8 1 (3 * day)]

/-- The timeline is post 1, exactly seven days old; the search finds nothing. -/
def brinkClient : TwitterAPIClient Unit :=
  fixedClient ([postAged 1 (7 * day)], none) []

/-- The timeline is post 2 (a day old), post 1 (ten days old) and post 5
(thirty days old); the search finds nothing. -/
def mixedClient : TwitterAPIClient Unit :=
  fixedClient ([postAged 2 day, oldPost, postAged 5 (30 * day)], none) []

/-- The timeline holds post 1, ten days old, twice; the search finds nothing. -/
def twiceClient : TwitterAPIClient Unit :=
  fixedClient ([oldPost, oldPost], none) []

/-- The timeline is post 4, post 3 and post 4 again, each more than a week old;
the search finds nothing. -/
def echoClient : TwitterAPIClient Unit :=
  fixedClient ([postAged 4 (8 * day), postAged 3 (9 * day), postAged 4 (8 * day)], none) []

/-- The fetch of the timeline fails, and hands back post 1 with the error. -/
def failingClient : TwitterAPIClient Unit :=
  fixedClient ([oldPost], some "timeline unavailable") []

/-- An entry whose creation string does not parse. -/
def garbledPost : Tweet :=
  ⟨3, none, "garbled", 0⟩

/-- The timeline is post 2 (eight days old), an entry that does not parse, and
post 1 (ten days old); the search finds nothing. -/
def garbledClient : TwitterAPIClient Unit :=
  fixedClient ([postAged 2 (8 * day), garbledPost, oldPost], none) []

/-- A client without state that answers `GetSelf` with `self`,
`GetUserTimeline` with `timeline`, `GetSearch` with `search`, and `DeleteTweet`
with success. -/
def scriptedClient (self : User × Option Error) (timeline : List Tweet × Option Error)
    (search : SearchResponse × Option Error) : TwitterAPIClient Unit where
  GetSelf := fun _ s => (self, s)
  GetUserTimeline := fun _ s => (timeline, s)
  GetSearch := fun _ _ s => (search, s)
  DeleteTweet := fun _ _ s => ((default, none), s)

/-- The timeline is post 1, ten days old; `GetSelf` fails; the search would
find a reply to post 1 that is ten minutes old. -/
def anonymousClient : TwitterAPIClient Unit :=
  scriptedClient (⟨""⟩, some "not authorized") ([oldPost], none)
    (⟨[replyAged 9 1 (10 * minute)]⟩, none)

/-- The timeline is post 1, ten days old; the search fails, and hands back a
reply to post 1 that is ten minutes old with the error. -/
def searchlessClient : TwitterAPIClient Unit :=
  scriptedClient (⟨"me"⟩, none) ([oldPost], none)
    (⟨[replyAged 9 1 (10 * minute)]⟩, some "rate limited")

/-- The timeline has 201 posts, numbered from 0, each ten days old; the search
finds nothing. -/
def longClient : TwitterAPIClient Unit :=
  fixedClient ((List.range 201).map (fun i => postAged i (10 * day)), none) []

/-- The timeline is post 2 (a day old), post 1 (ten days old), an entry that
does not parse, post 5 (thirty days old) and post 6 (eight days old); the
search fails. -/
def busyClient : TwitterAPIClient Unit :=
  scriptedClient (⟨"me"⟩, none)
    ([postAged 2 day, oldPost, garbledPost, postAged 5 (30 * day), postAged 6 (8 * day)], none)
    (⟨[]⟩, some "rate limited")

/-- An environment in which the six variables named in the specification
(without the prefix `TWITTER_` on the credentials) are set, and no other. -/
def unprefixedEnviron : Environ := fun name =>
  if name ∈ ["CONSUMER_KEY", "CONSUMER_SECRET", "ACCESS_TOKEN", "ACCESS_TOKEN_SECRET",
    "MAX_TWEET_AGE", "TWEET_INTERACTION_TIMEOUT"] then some "x" else none

/-- An environment in which the six variables the code reads are set, and no
other: `CONSUMER_KEY`, `CONSUMER_SECRET`, `ACCESS_TOKEN` and
`ACCESS_TOKEN_SECRET` are absent. -/
def prefixedEnviron : Environ := fun name =>
  if name ∈ requiredVariables then some "x" else none

/-- A table of durations for the examples: `168h` and `1h` are durations, no
other string is. -/
def tableParse : String → Option Duration := fun s =>
  if s = "168h" then some (168 * hour) else if s = "1h" then some hour else none

/-! ## The filtering loop -/

theorem filterStep_fold_inv (tweetID : Int) (statuses : List Tweet) (k : Nat)
    (hk : k ≤ statuses.length) :
    ((List.range k).foldl (filterStep tweetID) (statuses, 0)).1.length = statuses.length ∧
    ((List.range k).foldl (filterStep tweetID) (statuses, 0)).2 ≤ k ∧
    ((List.range k).foldl (filterStep tweetID) (statuses, 0)).1.take
        ((List.range k).foldl (filterStep tweetID) (statuses, 0)).2
      = repliesTo tweetID (statuses.take k) ∧
    ((List.range k).foldl (filterStep tweetID) (statuses, 0)).1.drop k = statuses.drop k := by
  induction k with
  | zero => simp [repliesTo]
  | succ k ih =>
    obtain ⟨hlen, hle, htake, hdrop⟩ := ih (Nat.le_of_succ_le hk)
    have hklt : k < statuses.length := hk
    rw [List.range_succ, List.foldl_append]
    generalize (List.range k).foldl (filterStep tweetID) (statuses, 0) = r at hlen hle htake hdrop
    obtain ⟨arr, n⟩ := r
    simp only at hlen hle htake hdrop
    have hget : arr[k]? = some statuses[k] := by
      have h1 : (arr.drop k)[0]? = (statuses.drop k)[0]? := by rw [hdrop]
      rw [List.getElem?_drop, List.getElem?_drop] at h1
      simpa [List.getElem?_eq_getElem hklt] using h1
    have hdrop1 : arr.drop (k + 1) = statuses.drop (k + 1) := by
      have h1 : (arr.drop k).drop 1 = (statuses.drop k).drop 1 := by rw [hdrop]
      simpa [List.drop_drop, Nat.add_comm] using h1
    have htk : statuses.take (k + 1) = statuses.take k ++ [statuses[k]] := by
      rw [List.take_succ, List.getElem?_eq_getElem hklt]; rfl
    simp only [List.foldl_cons, List.foldl_nil, filterStep, hget]
    by_cases hm : (statuses[k]).InReplyToStatusID = tweetID
    · simp only [hm, if_true]
      refine ⟨by simp [hlen], by omega, ?_, ?_⟩
      · rw [htk, repliesTo, List.filter_append, ← repliesTo, ← htake]
        have hn : n < arr.length := by omega
        rw [List.take_succ, List.getElem?_set_self hn, List.set_take,
          List.set_eq_of_length_le (by simp)]
        simp [hm]
      · rw [List.drop_set_of_lt _ _ (by omega)]; exact hdrop1
    · simp only [hm, if_false]
      refine ⟨hlen, by omega, ?_, hdrop1⟩
      rw [htk, repliesTo, List.filter_append, ← repliesTo, ← htake]
      simp [hm]

/-- The in-place filter of `getRepliesForTweet` keeps exactly the replies to
`tweetID`, in order. -/
theorem filterReplies_eq (tweetID : Int) (statuses : List Tweet) :
    filterReplies tweetID statuses = repliesTo tweetID statuses := by
  have h := (filterStep_fold_inv tweetID statuses statuses.length (Nat.le_refl _)).2.2.1
  simpa [filterReplies] using h

/-! ## `getRepliesForTweet` and `hasOngoingInteractions` -/

theorem getRepliesForTweet_self_err {σ : Type} (api : TwitterAPIClient σ) (tweetID : Int)
    (s : σ) (e : Error) (h : (api.GetSelf [] s).1.2 = some e) :
    getRepliesForTweet api tweetID s = ⟨[], [Call.GetSelf []], (api.GetSelf [] s).2⟩ := by
  simp [getRepliesForTweet, h]

theorem getRepliesForTweet_search_err {σ : Type} (api : TwitterAPIClient σ) (tweetID : Int)
    (s : σ) (e : Error) (h : (api.GetSelf [] s).1.2 = none)
    (h2 : (replySearch api tweetID s).1.2 = some e) :
    (getRepliesForTweet api tweetID s).val = [] ∧
    (getRepliesForTweet api tweetID s).st = (replySearch api tweetID s).2 := by
  simp only [replySearch, Values.Add, List.nil_append, List.cons_append] at h2 ⊢
  simp [getRepliesForTweet, h, h2, Values.Add]

theorem getRepliesForTweet_ok {σ : Type} (api : TwitterAPIClient σ) (tweetID : Int)
    (s : σ) (h : (api.GetSelf [] s).1.2 = none)
    (h2 : (replySearch api tweetID s).1.2 = none) :
    (getRepliesForTweet api tweetID s).val
      = repliesTo tweetID (replySearch api tweetID s).1.1.Statuses ∧
    (getRepliesForTweet api tweetID s).st = (replySearch api tweetID s).2 := by
  simp only [replySearch, Values.Add, List.nil_append, List.cons_append] at h2 ⊢
  simp [getRepliesForTweet, h, h2, Values.Add, filterReplies_eq]

theorem deletedIds_append (xs ys : List Call) :
    deletedIds (xs ++ ys) = deletedIds xs ++ deletedIds ys := by
  induction xs with
  | nil => rfl
  | cons c cs ih => cases c <;> simp [deletedIds, ih]

theorem mem_deletedIds (id : Int) (cs : List Call) :
    id ∈ deletedIds cs ↔ ∃ b, Call.DeleteTweet id b ∈ cs := by
  induction cs with
  | nil => simp [deletedIds]
  | cons c cs ih =>
    cases c with
    | DeleteTweet i b =>
      simp only [deletedIds, List.mem_cons, ih, Call.DeleteTweet.injEq]
      constructor
      · rintro (h | ⟨b2, h⟩)
        · exact ⟨b, Or.inl ⟨h, rfl⟩⟩
        · exact ⟨b2, Or.inr h⟩
      · rintro ⟨b2, (⟨h, _⟩ | h)⟩
        · exact Or.inl h
        · exact Or.inr ⟨b2, h⟩
    | GetSelf v => simp [deletedIds, ih]
    | GetUserTimeline v => simp [deletedIds, ih]
    | GetSearch q v => simp [deletedIds, ih]

theorem getRepliesForTweet_deletedIds {σ : Type} (api : TwitterAPIClient σ) (tweetID : Int)
    (s : σ) : deletedIds (getRepliesForTweet api tweetID s).calls = [] := by
  unfold getRepliesForTweet
  simp only
  split
  · rfl
  · split <;> rfl

/-- The loop of `hasOngoingInteractions` answers true exactly when one of the
elapsed times it measures is below the limit. -/
theorem repliesLoop_true_iff {σ : Type} (clock : σ → Time × σ) (limit : Duration)
    (replies : List Tweet) (s : σ) :
    (repliesLoop clock limit replies s).1 = true ↔
      ∃ p ∈ replyAges clock replies s, p.2 < limit := by
  induction replies generalizing s with
  | nil => simp [repliesLoop, replyAges]
  | cons r rs ih =>
    unfold repliesLoop replyAges
    cases hr : r.CreatedAtTime with
    | none => simpa using ih s
    | some t =>
      simp only
      by_cases hlt : (timeSince clock t s).1 < limit
      · simp only [hlt, if_true, List.mem_cons, true_iff]
        exact ⟨_, Or.inl rfl, hlt⟩
      · simp only [hlt, if_false, ih, List.mem_cons, exists_eq_or_imp, false_or]

theorem hasOngoingInteractions_no_delete {σ : Type} (clock : σ → Time × σ)
    (api : TwitterAPIClient σ) (tweetID : Int) (limit : Duration) (s : σ) (id : Int) (b : Bool) :
    Call.DeleteTweet id b ∉ (hasOngoingInteractions clock api tweetID limit s).calls := by
  intro h
  have h2 : id ∈ deletedIds (getRepliesForTweet api tweetID s).calls :=
    (mem_deletedIds id _).2 ⟨b, h⟩
  rw [getRepliesForTweet_deletedIds] at h2
  exact absurd h2 (List.not_mem_nil _)

theorem isWhitelisted_iff (whitelist : List String) (id : Int) :
    isWhitelisted whitelist id = true ↔ FormatInt id ∈ whitelist := by
  induction whitelist with
  | nil => simp [isWhitelisted]
  | cons w ws ih =>
    unfold isWhitelisted
    by_cases h : w = FormatInt id
    · simp [h]
    · simp only [h, if_false, ih, List.mem_cons]
      constructor
      · exact Or.inr
      · rintro (h2 | h2)
        · exact absurd h2.symm h
        · exact h2

/-! ## One turn of the loop of `deleteFromTimeline` -/

section step

variable {σ : Type} (clock : σ → Time × σ) (whitelist : List String)
  (api : TwitterAPIClient σ) (tweetAgeLimit interactionAgeLimit : Duration)

theorem deleteStep_unparsable (tweet : Tweet) (s : σ) (h : tweet.CreatedAtTime = none) :
    deleteStep clock whitelist api tweetAgeLimit interactionAgeLimit tweet s = ⟨(), [], s⟩ := by
  simp [deleteStep, h]

theorem deleteStep_young (tweet : Tweet) (s : σ) (t : Time) (h : tweet.CreatedAtTime = some t)
    (hy : (timeSince clock t s).1 ≤ tweetAgeLimit) :
    deleteStep clock whitelist api tweetAgeLimit interactionAgeLimit tweet s
      = ⟨(), [], (timeSince clock t s).2⟩ := by
  have hn : ¬ (timeSince clock t s).1 > tweetAgeLimit := not_lt.mpr hy
  simp [deleteStep, h, hn]

theorem deleteStep_whitelisted (tweet : Tweet) (s : σ) (t : Time)
    (h : tweet.CreatedAtTime = some t) (ho : tweetAgeLimit < (timeSince clock t s).1)
    (hw : isWhitelisted whitelist tweet.Id = true) :
    deleteStep clock whitelist api tweetAgeLimit interactionAgeLimit tweet s
      = ⟨(), [], (timeSince clock t s).2⟩ := by
  have ho2 : (timeSince clock t s).1 > tweetAgeLimit := ho
  simp [deleteStep, h, ho2, hw]

theorem deleteStep_ongoing (tweet : Tweet) (s : σ) (t : Time)
    (h : tweet.CreatedAtTime = some t) (ho : tweetAgeLimit < (timeSince clock t s).1)
    (hw : isWhitelisted whitelist tweet.Id = false)
    (hi : (hasOngoingInteractions clock api tweet.Id interactionAgeLimit
      (timeSince clock t s).2).val = true) :
    deleteStep clock whitelist api tweetAgeLimit interactionAgeLimit tweet s
      = ⟨(), (hasOngoingInteractions clock api tweet.Id interactionAgeLimit
            (timeSince clock t s).2).calls,
          (hasOngoingInteractions clock api tweet.Id interactionAgeLimit
            (timeSince clock t s).2).st⟩ := by
  have ho2 : (timeSince clock t s).1 > tweetAgeLimit := ho
  simp [deleteStep, h, ho2, hw, hi]

theorem deleteStep_deletes (tweet : Tweet) (s : σ) (t : Time)
    (h : tweet.CreatedAtTime = some t) (ho : tweetAgeLimit < (timeSince clock t s).1)
    (hw : isWhitelisted whitelist tweet.Id = false)
    (hi : (hasOngoingInteractions clock api tweet.Id interactionAgeLimit
      (timeSince clock t s).2).val = false) :
    deleteStep clock whitelist api tweetAgeLimit interactionAgeLimit tweet s
      = ⟨(), (hasOngoingInteractions clock api tweet.Id interactionAgeLimit
            (timeSince clock t s).2).calls ++ [Call.DeleteTweet tweet.Id true],
          (api.DeleteTweet tweet.Id true (hasOngoingInteractions clock api tweet.Id
            interactionAgeLimit (timeSince clock t s).2).st).2⟩ := by
  have ho2 : (timeSince clock t s).1 > tweetAgeLimit := ho
  simp [deleteStep, h, ho2, hw, hi]

/-- The turn for one entry calls `DeleteTweet` for it exactly when the entry
parses, is older than the limit, is not whitelisted and has no ongoing
interaction. -/
theorem deleteStep_delete_iff (tweet : Tweet) (s : σ) :
    Call.DeleteTweet tweet.Id true ∈
        (deleteStep clock whitelist api tweetAgeLimit interactionAgeLimit tweet s).calls ↔
      ∃ t, tweet.CreatedAtTime = some t ∧ tweetAgeLimit < (timeSince clock t s).1 ∧
        isWhitelisted whitelist tweet.Id = false ∧
        (hasOngoingInteractions clock api tweet.Id interactionAgeLimit
          (timeSince clock t s).2).val = false := by
  cases h : tweet.CreatedAtTime with
  | none => simp [deleteStep_unparsable clock whitelist api _ _ tweet s h]
  | some t =>
    by_cases ho : tweetAgeLimit < (timeSince clock t s).1
    · cases hw : isWhitelisted whitelist tweet.Id with
      | true => simp [deleteStep_whitelisted clock whitelist api _ _ tweet s t h ho hw]
      | false =>
        cases hi : (hasOngoingInteractions clock api tweet.Id interactionAgeLimit
            (timeSince clock t s).2).val with
        | true =>
          rw [deleteStep_ongoing clock whitelist api _ _ tweet s t h ho hw hi]
          simp [hi, hasOngoingInteractions_no_delete]
        | false =>
          rw [deleteStep_deletes clock whitelist api _ _ tweet s t h ho hw hi]
          simp [hi, ho]
    · rw [deleteStep_young clock whitelist api _ _ tweet s t h (not_lt.mp ho)]
      simp [ho]

/-- The turn for one entry passes no identifier but the entry's own to
`DeleteTweet`, at most once, and with `trimUser` set. -/
theorem deleteStep_deletes_own (tweet : Tweet) (s : σ) :
    (deletedIds (deleteStep clock whitelist api tweetAgeLimit interactionAgeLimit
        tweet s).calls = [] ∨
      deletedIds (deleteStep clock whitelist api tweetAgeLimit interactionAgeLimit
        tweet s).calls = [tweet.Id]) ∧
    ∀ id b, Call.DeleteTweet id b ∈
        (deleteStep clock whitelist api tweetAgeLimit interactionAgeLimit tweet s).calls →
      id = tweet.Id ∧ b = true := by
  have hnil : ∀ u, deletedIds (hasOngoingInteractions clock api tweet.Id interactionAgeLimit
      u).calls = [] := fun u => getRepliesForTweet_deletedIds api tweet.Id u
  cases h : tweet.CreatedAtTime with
  | none => simp [deleteStep_unparsable clock whitelist api _ _ tweet s h, deletedIds]
  | some t =>
    by_cases ho : tweetAgeLimit < (timeSince clock t s).1
    · cases hw : isWhitelisted whitelist tweet.Id with
      | true => simp [deleteStep_whitelisted clock whitelist api _ _ tweet s t h ho hw, deletedIds]
      | false =>
        cases hi : (hasOngoingInteractions clock api tweet.Id interactionAgeLimit
            (timeSince clock t s).2).val with
        | true =>
          rw [deleteStep_ongoing clock whitelist api _ _ tweet s t h ho hw hi]
          refine ⟨Or.inl (hnil _), ?_⟩
          intro id b hmem
          exact absurd hmem (hasOngoingInteractions_no_delete clock api tweet.Id
            interactionAgeLimit _ id b)
        | false =>
          rw [deleteStep_deletes clock whitelist api _ _ tweet s t h ho hw hi]
          refine ⟨Or.inr ?_, ?_⟩
          · rw [deletedIds_append, hnil]; rfl
          · intro id b hmem
            rcases List.mem_append.1 hmem with h1 | h1
            · exact absurd h1 (hasOngoingInteractions_no_delete clock api tweet.Id
                interactionAgeLimit _ id b)
            · simpa using h1
    · rw [deleteStep_young clock whitelist api _ _ tweet s t h (not_lt.mp ho)]
      simp [deletedIds]

/-- A turn that does not delete its entry makes no `DeleteTweet` call. -/
theorem deleteStep_no_delete (tweet : Tweet) (s : σ)
    (h : Call.DeleteTweet tweet.Id true ∉
      (deleteStep clock whitelist api tweetAgeLimit interactionAgeLimit tweet s).calls) :
    deletedIds (deleteStep clock whitelist api tweetAgeLimit interactionAgeLimit
        tweet s).calls = [] ∧
    ∀ id b, Call.DeleteTweet id b ∉
      (deleteStep clock whitelist api tweetAgeLimit interactionAgeLimit tweet s).calls := by
  have hown := deleteStep_deletes_own clock whitelist api tweetAgeLimit interactionAgeLimit tweet s
  have hno : ∀ id b, Call.DeleteTweet id b ∉
      (deleteStep clock whitelist api tweetAgeLimit interactionAgeLimit tweet s).calls := by
    intro id b hmem
    obtain ⟨hid, hb⟩ := hown.2 id b hmem
    subst hid; subst hb
    exact h hmem
  refine ⟨?_, hno⟩
  rcases hown.1 with h1 | h1
  · exact h1
  · exfalso
    have hm : tweet.Id ∈ deletedIds (deleteStep clock whitelist api tweetAgeLimit
        interactionAgeLimit tweet s).calls := by rw [h1]; exact List.mem_singleton.2 rfl
    obtain ⟨b, hb⟩ := (mem_deletedIds _ _).1 hm
    exact hno _ _ hb

/-- A turn that deletes its entry passes exactly its identifier to `DeleteTweet`. -/
theorem deleteStep_one_delete (tweet : Tweet) (s : σ)
    (h : Call.DeleteTweet tweet.Id true ∈
      (deleteStep clock whitelist api tweetAgeLimit interactionAgeLimit tweet s).calls) :
    deletedIds (deleteStep clock whitelist api tweetAgeLimit interactionAgeLimit
        tweet s).calls = [tweet.Id] := by
  rcases (deleteStep_deletes_own clock whitelist api tweetAgeLimit interactionAgeLimit
    tweet s).1 with h1 | h1
  · exfalso
    have hm : tweet.Id ∈ deletedIds (deleteStep clock whitelist api tweetAgeLimit
        interactionAgeLimit tweet s).calls := (mem_deletedIds _ _).2 ⟨true, h⟩
    rw [h1] at hm
    exact absurd hm (List.not_mem_nil _)
  · exact h1

/-- With a recent reply among those measured, the check answers true. -/
theorem hasOngoingInteractions_of_recent (tweetID : Int) (s : σ)
    (hself : (api.GetSelf [] s).1.2 = none)
    (hsearch : (replySearch api tweetID s).1.2 = none)
    (p : Tweet × Duration)
    (hp : p ∈ replyAges clock (repliesTo tweetID (replySearch api tweetID s).1.1.Statuses)
      (replySearch api tweetID s).2)
    (hd : p.2 < interactionAgeLimit) :
    (hasOngoingInteractions clock api tweetID interactionAgeLimit s).val = true := by
  obtain ⟨hv, hs⟩ := getRepliesForTweet_ok api tweetID s hself hsearch
  simp only [hasOngoingInteractions, hv, hs]
  exact (repliesLoop_true_iff clock interactionAgeLimit _ _).2 ⟨p, hp, hd⟩

/-- When no measured reply is recent, or the lookup fails, the check answers
false. -/
theorem hasOngoingInteractions_of_stale (tweetID : Int) (s : σ)
    (hall : (api.GetSelf [] s).1.2 = none → (replySearch api tweetID s).1.2 = none →
      ∀ p ∈ replyAges clock (repliesTo tweetID (replySearch api tweetID s).1.1.Statuses)
        (replySearch api tweetID s).2, interactionAgeLimit ≤ p.2) :
    (hasOngoingInteractions clock api tweetID interactionAgeLimit s).val = false := by
  cases hself : (api.GetSelf [] s).1.2 with
  | some e =>
    simp [hasOngoingInteractions, getRepliesForTweet_self_err api tweetID s e hself, repliesLoop]
  | none =>
    cases hsearch : (replySearch api tweetID s).1.2 with
    | some e =>
      obtain ⟨hv, hs⟩ := getRepliesForTweet_search_err api tweetID s e hself hsearch
      simp [hasOngoingInteractions, hv, hs, repliesLoop]
    | none =>
      obtain ⟨hv, hs⟩ := getRepliesForTweet_ok api tweetID s hself hsearch
      simp only [hasOngoingInteractions, hv, hs]
      rw [Bool.eq_false_iff]
      intro htrue
      obtain ⟨p, hp, hd⟩ := (repliesLoop_true_iff clock interactionAgeLimit _ _).1 htrue
      exact absurd hd (not_lt.mpr (hall hself hsearch p hp))

/-! ## The loop and the pass -/

theorem deleteLoop_append (pre post : List Tweet) (s : σ) :
    deleteLoop clock whitelist api tweetAgeLimit interactionAgeLimit (pre ++ post) s
      = ⟨(), (deleteLoop clock whitelist api tweetAgeLimit interactionAgeLimit pre s).calls ++
          (deleteLoop clock whitelist api tweetAgeLimit interactionAgeLimit post
            (deleteLoop clock whitelist api tweetAgeLimit interactionAgeLimit pre s).st).calls,
          (deleteLoop clock whitelist api tweetAgeLimit interactionAgeLimit post
            (deleteLoop clock whitelist api tweetAgeLimit interactionAgeLimit pre s).st).st⟩ := by
  induction pre generalizing s with
  | nil => simp [deleteLoop]
  | cons p ps ih => simp [deleteLoop, ih, List.append_assoc]

theorem getTimeline_calls (s : σ) :
    (getTimeline api s).calls = [Call.GetUserTimeline [("count", "200"), ("include_rts", "true")]] := by
  unfold getTimeline
  simp only
  split <;> rfl

/-- The calls of a pass over the timeline `pre ++ tweet :: post`: the fetch,
the turns for `pre`, the turn for `tweet`, the turns for `post`. -/
theorem deleteFromTimeline_split (pre post : List Tweet) (tweet : Tweet) (s : σ)
    (htl : (getTimeline api s).val.1 = pre ++ tweet :: post) :
    (deleteFromTimeline clock whitelist api tweetAgeLimit interactionAgeLimit s).calls
      = (getTimeline api s).calls ++
        ((deleteLoop clock whitelist api tweetAgeLimit interactionAgeLimit pre
            (getTimeline api s).st).calls ++
          ((entryTurn clock whitelist api tweetAgeLimit interactionAgeLimit pre tweet s).calls ++
            (deleteLoop clock whitelist api tweetAgeLimit interactionAgeLimit post
              (entryTurn clock whitelist api tweetAgeLimit interactionAgeLimit pre tweet
                s).st).calls)) := by
  simp [deleteFromTimeline, htl, deleteLoop_append, deleteLoop, entryState, entryTurn]

/-- The identifiers a pass over `pre ++ tweet :: post` passes to `DeleteTweet`:
those of the turns for `pre`, of the turn for `tweet`, of the turns for `post`. -/
theorem deleteFromTimeline_deletedIds (pre post : List Tweet) (tweet : Tweet) (s : σ)
    (htl : (getTimeline api s).val.1 = pre ++ tweet :: post) :
    deletedIds (deleteFromTimeline clock whitelist api tweetAgeLimit interactionAgeLimit s).calls
      = deletedIds (deleteLoop clock whitelist api tweetAgeLimit interactionAgeLimit pre
            (getTimeline api s).st).calls ++
          (deletedIds (entryTurn clock whitelist api tweetAgeLimit interactionAgeLimit pre
              tweet s).calls ++
            deletedIds (deleteLoop clock whitelist api tweetAgeLimit interactionAgeLimit post
              (entryTurn clock whitelist api tweetAgeLimit interactionAgeLimit pre tweet
                s).st).calls) := by
  rw [deleteFromTimeline_split clock whitelist api _ _ pre post tweet s htl,
    getTimeline_calls, deletedIds_append, deletedIds_append, deletedIds_append]
  rfl

/-- A `DeleteTweet` call of the loop is made by the turn of an entry with
that identifier, with `trimUser` set. -/
theorem deleteLoop_delete_mem (tl : List Tweet) (s : σ) (id : Int) (b : Bool)
    (h : Call.DeleteTweet id b ∈
      (deleteLoop clock whitelist api tweetAgeLimit interactionAgeLimit tl s).calls) :
    ∃ pre tweet post, tl = pre ++ tweet :: post ∧ tweet.Id = id ∧ b = true ∧
      Call.DeleteTweet tweet.Id true ∈
        (deleteStep clock whitelist api tweetAgeLimit interactionAgeLimit tweet
          (deleteLoop clock whitelist api tweetAgeLimit interactionAgeLimit pre s).st).calls := by
  induction tl generalizing s with
  | nil => simp [deleteLoop] at h
  | cons p ps ih =>
    simp only [deleteLoop, List.mem_append] at h
    rcases h with h | h
    · obtain ⟨hid, hb⟩ :=
        (deleteStep_deletes_own clock whitelist api tweetAgeLimit interactionAgeLimit p s).2 id b h
      subst hid; subst hb
      exact ⟨[], p, ps, rfl, rfl, rfl, by simpa [deleteLoop] using h⟩
    · obtain ⟨pre, tweet, post, htl, hid, hb, hmem⟩ := ih _ h
      refine ⟨p :: pre, tweet, post, by simp [htl], hid, hb, ?_⟩
      simpa [deleteLoop] using hmem

/-- The identifiers the loop passes to `DeleteTweet` are taken from the
identifiers of the timeline, in their order. -/
theorem deleteLoop_deletedIds_sublist (tl : List Tweet) (s : σ) :
    (deletedIds (deleteLoop clock whitelist api tweetAgeLimit interactionAgeLimit tl s).calls).Sublist
      (tl.map Tweet.Id) := by
  induction tl generalizing s with
  | nil => simp [deleteLoop, deletedIds]
  | cons p ps ih =>
    simp only [deleteLoop, deletedIds_append, List.map_cons]
    have hrest := ih (deleteStep clock whitelist api tweetAgeLimit interactionAgeLimit p s).st
    rcases (deleteStep_deletes_own clock whitelist api tweetAgeLimit interactionAgeLimit
      p s).1 with h | h
    · rw [h, List.nil_append]
      exact List.Sublist.cons _ hrest
    · rw [h]
      exact List.Sublist.cons₂ _ hrest

theorem deleteFromTimeline_deletedIds_sublist (s : σ) :
    (deletedIds (deleteFromTimeline clock whitelist api tweetAgeLimit interactionAgeLimit
        s).calls).Sublist ((getTimeline api s).val.1.map Tweet.Id) := by
  simp only [deleteFromTimeline, deletedIds_append, getTimeline_calls]
  exact deleteLoop_deletedIds_sublist clock whitelist api _ _ _ _

/-- The loop does not look at what `DeleteTweet` returns. -/
theorem deleteLoop_withDeleteOutcome (outcome : Int → Bool → σ → Tweet × Option Error)
    (tl : List Tweet) (s : σ) :
    deleteLoop clock whitelist (withDeleteOutcome api outcome) tweetAgeLimit
        interactionAgeLimit tl s
      = deleteLoop clock whitelist api tweetAgeLimit interactionAgeLimit tl s := by
  induction tl generalizing s with
  | nil => rfl
  | cons p ps ih =>
    have hstep : deleteStep clock whitelist (withDeleteOutcome api outcome) tweetAgeLimit
        interactionAgeLimit p s
        = deleteStep clock whitelist api tweetAgeLimit interactionAgeLimit p s := rfl
    simp only [deleteLoop, hstep, ih]

theorem replyAges_mem (replies : List Tweet) (s : σ) (R : Tweet) (d : Duration)
    (h : (R, d) ∈ replyAges clock replies s) : R ∈ replies ∧ R.CreatedAtTime ≠ none := by
  induction replies generalizing s with
  | nil => simp [replyAges] at h
  | cons r rs ih =>
    unfold replyAges at h
    cases hr : r.CreatedAtTime with
    | none =>
      rw [hr] at h
      exact ⟨List.mem_cons_of_mem _ (ih _ h).1, (ih _ h).2⟩
    | some t =>
      rw [hr] at h
      simp only [List.mem_cons, Prod.mk.injEq] at h
      rcases h with ⟨h1, _⟩ | h
      · subst h1
        exact ⟨List.mem_cons_self _ _, by simp [hr]⟩
      · exact ⟨List.mem_cons_of_mem _ (ih _ h).1, (ih _ h).2⟩

/-- A reply measured by the check for `tweetID` is one of the statuses of the
search, is a reply to `tweetID`, and has a timestamp that parses. -/
theorem replyAges_repliesTo_mem (tweetID : Int) (statuses : List Tweet) (s : σ) (R : Tweet)
    (d : Duration) (h : (R, d) ∈ replyAges clock (repliesTo tweetID statuses) s) :
    R ∈ statuses ∧ R.InReplyToStatusID = tweetID ∧ R.CreatedAtTime ≠ none := by
  obtain ⟨hmem, hparse⟩ := replyAges_mem clock _ s R d h
  rw [repliesTo, List.mem_filter] at hmem
  exact ⟨hmem.1, by simpa using hmem.2, hparse⟩

end step

/-! ## The eligibility rule -/

section claims

variable {σ : Type} (clock : σ → Time × σ) (whitelist : List String)
  (api : TwitterAPIClient σ) (tweetAgeLimit interactionAgeLimit : Duration)

/-- C1: in a pass whose timeline is `pre ++ tweet :: post`, the calls are those
of the fetch, of the turns for `pre`, of the turn for `tweet` and of the turns
for `post`, in this order; the turn for `tweet` calls `DeleteTweet` for it if
and only if its timestamp parses, its elapsed time read at that turn is
strictly greater than `tweetAgeLimit`, `isWhitelisted` is false and
`hasOngoingInteractions` is false; and that turn calls `DeleteTweet` with no
other arguments than `(tweet.Id, true)`. -/
theorem deleteFromTimeline_deletes_iff (pre post : List Tweet) (tweet : Tweet) (s : σ)
    (htl : (getTimeline api s).val.1 = pre ++ tweet :: post) :
    (deleteFromTimeline clock whitelist api tweetAgeLimit interactionAgeLimit s).calls =
      (getTimeline api s).calls ++ ((deleteLoop clock whitelist api tweetAgeLimit
      interactionAgeLimit pre (getTimeline api s).st).calls ++ ((entryTurn clock whitelist api
      tweetAgeLimit interactionAgeLimit pre tweet s).calls ++ (deleteLoop clock whitelist api
      tweetAgeLimit interactionAgeLimit post (entryTurn clock whitelist api tweetAgeLimit
      interactionAgeLimit pre tweet s).st).calls)) ∧
    (Call.DeleteTweet tweet.Id true ∈ (entryTurn clock whitelist api tweetAgeLimit
      interactionAgeLimit pre tweet s).calls ↔ ∃ t, tweet.CreatedAtTime = some t ∧ tweetAgeLimit <
      (timeSince clock t (entryState clock whitelist api tweetAgeLimit interactionAgeLimit pre
      s)).1 ∧ isWhitelisted whitelist tweet.Id = false ∧ (hasOngoingInteractions clock api
      tweet.Id interactionAgeLimit (timeSince clock t (entryState clock whitelist api
      tweetAgeLimit interactionAgeLimit pre s)).2).val = false) ∧
    (∀ id b, Call.DeleteTweet id b ∈ (entryTurn clock whitelist api tweetAgeLimit
      interactionAgeLimit pre tweet s).calls → id = tweet.Id ∧ b = true) :=
  ⟨deleteFromTimeline_split clock whitelist api _ _ pre post tweet s htl,
    deleteStep_delete_iff clock whitelist api _ _ tweet _,
    (deleteStep_deletes_own clock whitelist api _ _ tweet _).2⟩

/-- C1, on an example: a timeline of a one-day-old post, a ten-day-old post
and a whitelisted thirty-day-old post, with limits of seven days and one hour;
the entry looked at is the ten-day-old post. -/
theorem deleteFromTimeline_deletes_iff_witness :
    (getTimeline mixedClient ()).val.1 = [postAged 2 day] ++ oldPost :: [postAged 5 (30 * day)] ∧
    (deleteFromTimeline fixedClock ["5"] mixedClient (7 * day) hour ()).calls = (getTimeline
      mixedClient ()).calls ++ ((deleteLoop fixedClock ["5"] mixedClient (7 * day) hour [postAged
      2 day] (getTimeline mixedClient ()).st).calls ++ ((entryTurn fixedClock ["5"] mixedClient (7
      * day) hour [postAged 2 day] oldPost ()).calls ++ (deleteLoop fixedClock ["5"] mixedClient
      (7 * day) hour [postAged 5 (30 * day)] (entryTurn fixedClock ["5"] mixedClient (7 * day)
      hour [postAged 2 day] oldPost ()).st).calls)) ∧
    (Call.DeleteTweet oldPost.Id true ∈ (entryTurn fixedClock ["5"] mixedClient (7 * day) hour
      [postAged 2 day] oldPost ()).calls ↔ ∃ t, oldPost.CreatedAtTime = some t ∧ (7 * day) <
      (timeSince fixedClock t (entryState fixedClock ["5"] mixedClient (7 * day) hour [postAged 2
      day] ())).1 ∧ isWhitelisted ["5"] oldPost.Id = false ∧ (hasOngoingInteractions fixedClock
      mixedClient oldPost.Id hour (timeSince fixedClock t (entryState fixedClock ["5"] mixedClient
      (7 * day) hour [postAged 2 day] ())).2).val = false) ∧
    (∀ id b, Call.DeleteTweet id b ∈ (entryTurn fixedClock ["5"] mixedClient (7 * day) hour
      [postAged 2 day] oldPost ()).calls → id = oldPost.Id ∧ b = true) :=
  ⟨by decide, deleteFromTimeline_deletes_iff fixedClock ["5"] mixedClient (7 * day) hour
    [postAged 2 day] [postAged 5 (30 * day)] oldPost () (by decide)⟩

/-- C2: a post whose identifier's decimal string is in the whitelist is never
passed to `DeleteTweet` during the pass, wherever it stands in the timeline,
whatever its age and whatever the reply search answers. -/
theorem whitelisted_never_deleted (tweet : Tweet) (s : σ)
    (hw : FormatInt tweet.Id ∈ whitelist) :
    ∀ b, Call.DeleteTweet tweet.Id b ∉ (deleteFromTimeline clock whitelist api tweetAgeLimit interactionAgeLimit s).calls := by
  intro b hcall
  simp only [deleteFromTimeline, List.mem_append, getTimeline_calls, List.mem_singleton] at hcall
  rcases hcall with hcall | hcall
  · exact absurd hcall (by simp)
  · obtain ⟨pre, q, post, _, hid, _, hq⟩ :=
      deleteLoop_delete_mem clock whitelist api _ _ _ _ _ _ hcall
    obtain ⟨_, _, _, hnw, _⟩ := (deleteStep_delete_iff clock whitelist api _ _ q _).1 hq
    rw [hid] at hnw
    have hyes := (isWhitelisted_iff whitelist tweet.Id).2 hw
    rw [hnw] at hyes
    exact Bool.noConfusion hyes

/-- C2, on the example of the specification: the timeline holds post 1, ten
days old, and the whitelist is `["1"]`; the pass makes no `DeleteTweet` call. -/
theorem whitelisted_never_deleted_witness :
    FormatInt oldPost.Id ∈ ["1"] ∧
    ∀ b, Call.DeleteTweet oldPost.Id b ∉ (deleteFromTimeline fixedClock ["1"] repliedClient (7 * day) hour ()).calls :=
  ⟨by decide, whitelisted_never_deleted fixedClock ["1"] repliedClient (7 * day) hour oldPost () (by decide)⟩

/-- C3 fails as stated: the timeline is post 1, ten days old; the reply search
for it returns a reply to post 1 that is ten minutes old, below the limit of
one hour, but returns it together with an error.  `getRepliesForTweet` then
drops the statuses, the check answers false, and the pass calls `DeleteTweet`
for post 1. -/
theorem recent_reply_blocks_delete_counterexample :
    (getTimeline searchlessClient ()).val.1 = [] ++ oldPost :: [] ∧
    oldPost.CreatedAtTime = some (epoch - 10 * day) ∧
    (replySearch searchlessClient oldPost.Id (timeSince fixedClock (epoch - 10 * day)
      (entryState fixedClock [] searchlessClient (7 * day) hour [] ())).2).1
      = (⟨[replyAged 9 1 (10 * minute)]⟩, some "rate limited") ∧
    (replyAged 9 1 (10 * minute)).InReplyToStatusID = oldPost.Id ∧
    (replyAged 9 1 (10 * minute)).CreatedAtTime = some (epoch - 10 * minute) ∧
    (timeSince fixedClock (epoch - 10 * minute) ()).1 = 10 * minute ∧
    10 * minute < hour ∧
    Call.DeleteTweet oldPost.Id true ∈
      (entryTurn fixedClock [] searchlessClient (7 * day) hour [] oldPost ()).calls ∧
    (deleteFromTimeline fixedClock [] searchlessClient (7 * day) hour ()).calls
      = [Call.GetUserTimeline [("count", "200"), ("include_rts", "true")], Call.GetSelf [],
          Call.GetSearch "to:me" [("count", "200"), ("since_id", "1")],
          Call.DeleteTweet 1 true] := by
  decide

/-- C3, amended: let `tweet` be an entry of the timeline with a parsable
timestamp, and let the reply search made for it succeed (`GetSelf` and
`GetSearch` both without error).  If among the statuses that are replies to
`tweet` (those with
`InReplyToStatusID = tweet.Id`) one, `R`, has an elapsed time `d`, read at its
turn in the check, strictly below `interactionAgeLimit`, then the turn for
`tweet` makes no `DeleteTweet` call, whatever the age of `tweet`: the pass
deletes what the turns for the other entries delete. -/
theorem recent_reply_blocks_delete (pre post : List Tweet) (tweet : Tweet) (s : σ)
    (htl : (getTimeline api s).val.1 = pre ++ tweet :: post) (t : Time)
    (ht : tweet.CreatedAtTime = some t)
    (hself : (api.GetSelf [] (timeSince clock t (entryState clock whitelist api tweetAgeLimit
      interactionAgeLimit pre s)).2).1.2 = none)
    (hsearch : (replySearch api tweet.Id (timeSince clock t (entryState clock whitelist api
      tweetAgeLimit interactionAgeLimit pre s)).2).1.2 = none)
    (R : Tweet) (d : Duration)
    (hR : (R, d) ∈ replyAges clock (repliesTo tweet.Id (replySearch api tweet.Id (timeSince
      clock t (entryState clock whitelist api tweetAgeLimit interactionAgeLimit pre
      s)).2).1.1.Statuses) (replySearch api tweet.Id (timeSince clock t (entryState clock
      whitelist api tweetAgeLimit interactionAgeLimit pre s)).2).2)
    (hd : d < interactionAgeLimit) :
    (∀ id b, Call.DeleteTweet id b ∉ (entryTurn clock whitelist api tweetAgeLimit
      interactionAgeLimit pre tweet s).calls) ∧
    deletedIds (deleteFromTimeline clock whitelist api tweetAgeLimit interactionAgeLimit
      s).calls = deletedIds (deleteLoop clock whitelist api tweetAgeLimit interactionAgeLimit pre
      (getTimeline api s).st).calls ++ deletedIds (deleteLoop clock whitelist api tweetAgeLimit
      interactionAgeLimit post (entryTurn clock whitelist api tweetAgeLimit interactionAgeLimit
      pre tweet s).st).calls := by
  have hstep : Call.DeleteTweet tweet.Id true ∉
      (entryTurn clock whitelist api tweetAgeLimit interactionAgeLimit pre tweet s).calls := by
    intro hmem
    obtain ⟨u, hu, _, _, hfalse⟩ := (deleteStep_delete_iff clock whitelist api _ _ tweet _).1 hmem
    have hut : u = t := Option.some.inj (hu.symm.trans ht)
    subst hut
    have htrue := hasOngoingInteractions_of_recent clock api interactionAgeLimit tweet.Id _
      hself hsearch (R, d) hR hd
    rw [hfalse] at htrue
    exact Bool.noConfusion htrue
  have hno := deleteStep_no_delete clock whitelist api _ _ tweet _ hstep
  refine ⟨hno.2, ?_⟩
  rw [deleteFromTimeline_deletedIds clock whitelist api _ _ pre post tweet s htl]
  simp only [entryTurn] at hno ⊢
  rw [hno.1, List.nil_append]

/-- C3, on the example of the specification: post 1 is ten days old, the limit
for interactions is one hour, and the search finds a reply to post 1 that is
ten minutes old. -/
theorem recent_reply_blocks_delete_witness :
    (getTimeline repliedClient ()).val.1 = [] ++ oldPost :: [] ∧
    oldPost.CreatedAtTime = some (epoch - 10 * day) ∧
    (repliedClient.GetSelf [] (timeSince fixedClock (epoch - 10 * day) (entryState fixedClock []
      repliedClient (7 * day) hour [] ())).2).1.2 = none ∧
    (replySearch repliedClient oldPost.Id (timeSince fixedClock (epoch - 10 * day) (entryState
      fixedClock [] repliedClient (7 * day) hour [] ())).2).1.2 = none ∧
    (replyAged 9 1 (10 * minute), 10 * minute) ∈ replyAges fixedClock (repliesTo oldPost.Id
      (replySearch repliedClient oldPost.Id (timeSince fixedClock (epoch - 10 * day) (entryState
      fixedClock [] repliedClient (7 * day) hour [] ())).2).1.1.Statuses) (replySearch
      repliedClient oldPost.Id (timeSince fixedClock (epoch - 10 * day) (entryState fixedClock []
      repliedClient (7 * day) hour [] ())).2).2 ∧
    10 * minute < hour ∧
    (∀ id b, Call.DeleteTweet id b ∉ (entryTurn fixedClock [] repliedClient (7 * day) hour []
      oldPost ()).calls) ∧
    deletedIds (deleteFromTimeline fixedClock [] repliedClient (7 * day) hour ()).calls =
      deletedIds (deleteLoop fixedClock [] repliedClient (7 * day) hour [] (getTimeline
      repliedClient ()).st).calls ++ deletedIds (deleteLoop fixedClock [] repliedClient (7 * day)
      hour [] (entryTurn fixedClock [] repliedClient (7 * day) hour [] oldPost ()).st).calls :=
  ⟨by decide, by decide, by decide, by decide, by decide, by decide,
    recent_reply_blocks_delete fixedClock [] repliedClient (7 * day) hour [] [] oldPost ()
      (by decide) (epoch - 10 * day) (by decide) (by decide) (by decide)
      (replyAged 9 1 (10 * minute)) (10 * minute) (by decide) (by decide)⟩

/-- C4: let `tweet` be an entry of the timeline whose elapsed time, read at its
turn, is strictly greater than `tweetAgeLimit`, and which is not whitelisted.
If, whenever the reply search made for it succeeds, every reply to `tweet`
among the statuses has an elapsed time (read at its turn in the check) greater
than or equal to `interactionAgeLimit`, then the turn for `tweet` calls
`DeleteTweet` for it. -/
theorem stale_replies_do_not_block (pre post : List Tweet) (tweet : Tweet) (s : σ)
    (htl : (getTimeline api s).val.1 = pre ++ tweet :: post) (t : Time)
    (ht : tweet.CreatedAtTime = some t)
    (hold : tweetAgeLimit < (timeSince clock t (entryState clock whitelist api tweetAgeLimit
      interactionAgeLimit pre s)).1)
    (hnw : isWhitelisted whitelist tweet.Id = false)
    (hall : (api.GetSelf [] (timeSince clock t (entryState clock whitelist api tweetAgeLimit
      interactionAgeLimit pre s)).2).1.2 = none → (replySearch api tweet.Id (timeSince clock t
      (entryState clock whitelist api tweetAgeLimit interactionAgeLimit pre s)).2).1.2 = none → ∀
      p ∈ replyAges clock (repliesTo tweet.Id (replySearch api tweet.Id (timeSince clock t
      (entryState clock whitelist api tweetAgeLimit interactionAgeLimit pre s)).2).1.1.Statuses)
      (replySearch api tweet.Id (timeSince clock t (entryState clock whitelist api tweetAgeLimit
      interactionAgeLimit pre s)).2).2, interactionAgeLimit ≤ p.2) :
    Call.DeleteTweet tweet.Id true ∈ (entryTurn clock whitelist api tweetAgeLimit
      interactionAgeLimit pre tweet s).calls ∧
    deletedIds (deleteFromTimeline clock whitelist api tweetAgeLimit interactionAgeLimit
      s).calls = deletedIds (deleteLoop clock whitelist api tweetAgeLimit interactionAgeLimit pre
      (getTimeline api s).st).calls ++ tweet.Id :: deletedIds (deleteLoop clock whitelist api
      tweetAgeLimit interactionAgeLimit post (entryTurn clock whitelist api tweetAgeLimit
      interactionAgeLimit pre tweet s).st).calls := by
  have hfalse := hasOngoingInteractions_of_stale clock api interactionAgeLimit tweet.Id _ hall
  have hstep : Call.DeleteTweet tweet.Id true ∈
      (entryTurn clock whitelist api tweetAgeLimit interactionAgeLimit pre tweet s).calls :=
    (deleteStep_delete_iff clock whitelist api _ _ tweet _).2 ⟨t, ht, hold, hnw, hfalse⟩
  refine ⟨hstep, ?_⟩
  rw [deleteFromTimeline_deletedIds clock whitelist api _ _ pre post tweet s htl]
  have hone := deleteStep_one_delete clock whitelist api _ _ tweet _ hstep
  simp only [entryTurn] at hone ⊢
  rw [hone]
  rfl

/-- C4, on an example: post 1 is ten days old and has two replies, one exactly
as old as the limit for interactions (one hour) and one three days old. -/
theorem stale_replies_do_not_block_witness :
    (getTimeline staleClient ()).val.1 = [] ++ oldPost :: [] ∧
    oldPost.CreatedAtTime = some (epoch - 10 * day) ∧
    (7 * day) < (timeSince fixedClock (epoch - 10 * day) (entryState fixedClock [] staleClient
      (7 * day) hour [] ())).1 ∧
    isWhitelisted [] oldPost.Id = false ∧
    ((staleClient.GetSelf [] (timeSince fixedClock (epoch - 10 * day) (entryState fixedClock []
      staleClient (7 * day) hour [] ())).2).1.2 = none → (replySearch staleClient oldPost.Id
      (timeSince fixedClock (epoch - 10 * day) (entryState fixedClock [] staleClient (7 * day)
      hour [] ())).2).1.2 = none → ∀ p ∈ replyAges fixedClock (repliesTo oldPost.Id (replySearch
      staleClient oldPost.Id (timeSince fixedClock (epoch - 10 * day) (entryState fixedClock []
      staleClient (7 * day) hour [] ())).2).1.1.Statuses) (replySearch staleClient oldPost.Id
      (timeSince fixedClock (epoch - 10 * day) (entryState fixedClock [] staleClient (7 * day)
      hour [] ())).2).2, hour ≤ p.2) ∧
    Call.DeleteTweet oldPost.Id true ∈ (entryTurn fixedClock [] staleClient (7 * day) hour []
      oldPost ()).calls ∧
    deletedIds (deleteFromTimeline fixedClock [] staleClient (7 * day) hour ()).calls =
      deletedIds (deleteLoop fixedClock [] staleClient (7 * day) hour [] (getTimeline staleClient
      ()).st).calls ++ oldPost.Id :: deletedIds (deleteLoop fixedClock [] staleClient (7 * day)
      hour [] (entryTurn fixedClock [] staleClient (7 * day) hour [] oldPost ()).st).calls :=
  ⟨by decide, by decide, by decide, by decide, by decide,
    stale_replies_do_not_block fixedClock [] staleClient (7 * day) hour [] [] oldPost ()
      (by decide) (epoch - 10 * day) (by decide) (by decide) (by decide) (by decide)⟩

/-- C5: an entry of the timeline whose elapsed time, read at its turn, is less
than or equal to `tweetAgeLimit` is not deleted, whatever the whitelist and the
replies: its turn makes no call on the client at all. -/
theorem young_never_deleted (pre post : List Tweet) (tweet : Tweet) (s : σ)
    (htl : (getTimeline api s).val.1 = pre ++ tweet :: post) (t : Time)
    (ht : tweet.CreatedAtTime = some t)
    (hyoung : (timeSince clock t (entryState clock whitelist api tweetAgeLimit
      interactionAgeLimit pre s)).1 ≤ tweetAgeLimit) :
    (entryTurn clock whitelist api tweetAgeLimit interactionAgeLimit pre tweet s).calls = [] ∧
    deletedIds (deleteFromTimeline clock whitelist api tweetAgeLimit interactionAgeLimit
      s).calls = deletedIds (deleteLoop clock whitelist api tweetAgeLimit interactionAgeLimit pre
      (getTimeline api s).st).calls ++ deletedIds (deleteLoop clock whitelist api tweetAgeLimit
      interactionAgeLimit post (entryTurn clock whitelist api tweetAgeLimit interactionAgeLimit
      pre tweet s).st).calls := by
  have hstep := deleteStep_young clock whitelist api tweetAgeLimit interactionAgeLimit tweet _ t
    ht hyoung
  refine ⟨by rw [entryTurn, hstep], ?_⟩
  rw [deleteFromTimeline_deletedIds clock whitelist api _ _ pre post tweet s htl]
  simp only [entryTurn, hstep]
  rfl

/-- C5, on an example: post 1 is exactly as old as the limit of seven days, is
not whitelisted and has no reply. -/
theorem young_never_deleted_witness :
    (getTimeline brinkClient ()).val.1 = [] ++ (postAged 1 (7 * day)) :: [] ∧
    (postAged 1 (7 * day)).CreatedAtTime = some (epoch - 7 * day) ∧
    (timeSince fixedClock (epoch - 7 * day) (entryState fixedClock [] brinkClient (7 * day) hour
      [] ())).1 ≤ (7 * day) ∧
    (entryTurn fixedClock [] brinkClient (7 * day) hour [] (postAged 1 (7 * day)) ()).calls = [] ∧
    deletedIds (deleteFromTimeline fixedClock [] brinkClient (7 * day) hour ()).calls =
      deletedIds (deleteLoop fixedClock [] brinkClient (7 * day) hour [] (getTimeline brinkClient
      ()).st).calls ++ deletedIds (deleteLoop fixedClock [] brinkClient (7 * day) hour []
      (entryTurn fixedClock [] brinkClient (7 * day) hour [] (postAged 1 (7 * day)) ()).st).calls :=
  ⟨by decide, by decide, by decide,
    young_never_deleted fixedClock [] brinkClient (7 * day) hour [] [] (postAged 1 (7 * day)) ()
      (by decide) (epoch - 7 * day) (by decide) (by decide)⟩

/-- C6 fails as stated: the timeline holds post 1, ten days old, twice, the
whitelist is empty and the search finds no reply; the entry meets the three
conditions, and the pass calls `DeleteTweet` with its identifier twice. -/
theorem deleted_exactly_once_counterexample :
    (getTimeline twiceClient ()).val.1 = [] ++ oldPost :: [oldPost] ∧
    oldPost.CreatedAtTime = some (epoch - 10 * day) ∧
    (7 * day) < (timeSince fixedClock (epoch - 10 * day) (entryState fixedClock [] twiceClient
      (7 * day) hour [] ())).1 ∧
    isWhitelisted [] oldPost.Id = false ∧
    (∀ r ∈ (replySearch twiceClient oldPost.Id (timeSince fixedClock (epoch - 10 * day)
      (entryState fixedClock [] twiceClient (7 * day) hour [] ())).2).1.1.Statuses,
      r.InReplyToStatusID ≠ oldPost.Id) ∧
    (deleteFromTimeline fixedClock [] twiceClient (7 * day) hour ()).calls =
      [Call.GetUserTimeline [("count", "200"), ("include_rts", "true")], Call.GetSelf [],
      Call.GetSearch "to:me" [("count", "200"), ("since_id", "1")], Call.DeleteTweet 1 true,
      Call.GetSelf [], Call.GetSearch "to:me" [("count", "200"), ("since_id", "1")],
      Call.DeleteTweet 1 true] ∧
    (deletedIds (deleteFromTimeline fixedClock [] twiceClient (7 * day) hour ()).calls).count
      oldPost.Id = 2 := by
  decide

/-- C6, amended: let `tweet` be an entry of the timeline whose elapsed time,
read at its turn, is strictly greater than `tweetAgeLimit`, which is not
whitelisted, and for which the reply search, when it succeeds, returns no
status in reply to it.  If no other entry of the timeline has its identifier,
the pass calls `DeleteTweet` with that identifier exactly once. -/
theorem deleted_exactly_once (pre post : List Tweet) (tweet : Tweet) (s : σ)
    (htl : (getTimeline api s).val.1 = pre ++ tweet :: post) (t : Time)
    (ht : tweet.CreatedAtTime = some t)
    (hold : tweetAgeLimit < (timeSince clock t (entryState clock whitelist api tweetAgeLimit
      interactionAgeLimit pre s)).1)
    (hnw : isWhitelisted whitelist tweet.Id = false)
    (hnone : (api.GetSelf [] (timeSince clock t (entryState clock whitelist api tweetAgeLimit
      interactionAgeLimit pre s)).2).1.2 = none → (replySearch api tweet.Id (timeSince clock t
      (entryState clock whitelist api tweetAgeLimit interactionAgeLimit pre s)).2).1.2 = none → ∀
      r ∈ (replySearch api tweet.Id (timeSince clock t (entryState clock whitelist api
      tweetAgeLimit interactionAgeLimit pre s)).2).1.1.Statuses, r.InReplyToStatusID ≠ tweet.Id)
    (huniq : ∀ q ∈ (pre ++ post : List Tweet), q.Id ≠ tweet.Id) :
    Call.DeleteTweet tweet.Id true ∈ (deleteFromTimeline clock whitelist api tweetAgeLimit
      interactionAgeLimit s).calls ∧
    (deletedIds (deleteFromTimeline clock whitelist api tweetAgeLimit interactionAgeLimit
      s).calls).count tweet.Id = 1 := by
  have hfalse := hasOngoingInteractions_of_stale clock api interactionAgeLimit tweet.Id _
    (fun hself hsearch p hp => by
      have hempty : repliesTo tweet.Id
          (replySearch api tweet.Id (timeSince clock t (entryState clock whitelist api tweetAgeLimit interactionAgeLimit pre s)).2).1.1.Statuses = [] := by
        rw [repliesTo, List.filter_eq_nil_iff]
        intro r hr
        simpa using hnone hself hsearch r hr
      rw [hempty] at hp
      simp [replyAges] at hp)
  have hstep : Call.DeleteTweet tweet.Id true ∈
      (entryTurn clock whitelist api tweetAgeLimit interactionAgeLimit pre tweet s).calls :=
    (deleteStep_delete_iff clock whitelist api _ _ tweet _).2 ⟨t, ht, hold, hnw, hfalse⟩
  have hone := deleteStep_one_delete clock whitelist api _ _ tweet _ hstep
  have hother : ∀ (tl : List Tweet) (u : σ), (∀ q ∈ tl, q.Id ≠ tweet.Id) →
      (deletedIds (deleteLoop clock whitelist api tweetAgeLimit interactionAgeLimit tl u).calls).count tweet.Id = 0 := by
    intro tl u hq
    apply List.count_eq_zero_of_not_mem
    intro hin
    have hsub := (deleteLoop_deletedIds_sublist clock whitelist api tweetAgeLimit
      interactionAgeLimit tl u).subset hin
    obtain ⟨q, hqmem, hqid⟩ := List.mem_map.1 hsub
    exact hq q hqmem hqid
  constructor
  · rw [deleteFromTimeline_split clock whitelist api _ _ pre post tweet s htl]
    exact List.mem_append_right _ (List.mem_append_right _ (List.mem_append_left _ hstep))
  · rw [deleteFromTimeline_deletedIds clock whitelist api _ _ pre post tweet s htl]
    simp only [entryTurn] at hone ⊢
    rw [hone, List.count_append, List.count_append,
      hother pre _ (fun q hq => huniq q (List.mem_append_left _ hq)),
      hother post _ (fun q hq => huniq q (List.mem_append_right _ hq))]
    simp

/-- C6, on the example of the specification: the timeline is post 1, ten days
old, the whitelist is empty and no reply is found. -/
theorem deleted_exactly_once_witness :
    (getTimeline quietClient ()).val.1 = [] ++ oldPost :: [] ∧
    oldPost.CreatedAtTime = some (epoch - 10 * day) ∧
    (7 * day) < (timeSince fixedClock (epoch - 10 * day) (entryState fixedClock [] quietClient
      (7 * day) hour [] ())).1 ∧
    isWhitelisted [] oldPost.Id = false ∧
    ((quietClient.GetSelf [] (timeSince fixedClock (epoch - 10 * day) (entryState fixedClock []
      quietClient (7 * day) hour [] ())).2).1.2 = none → (replySearch quietClient oldPost.Id
      (timeSince fixedClock (epoch - 10 * day) (entryState fixedClock [] quietClient (7 * day)
      hour [] ())).2).1.2 = none → ∀ r ∈ (replySearch quietClient oldPost.Id (timeSince fixedClock
      (epoch - 10 * day) (entryState fixedClock [] quietClient (7 * day) hour []
      ())).2).1.1.Statuses, r.InReplyToStatusID ≠ oldPost.Id) ∧
    (∀ q ∈ ([] ++ [] : List Tweet), q.Id ≠ oldPost.Id) ∧
    Call.DeleteTweet oldPost.Id true ∈ (deleteFromTimeline fixedClock [] quietClient (7 * day)
      hour ()).calls ∧
    (deletedIds (deleteFromTimeline fixedClock [] quietClient (7 * day) hour ()).calls).count
      oldPost.Id = 1 :=
  ⟨by decide, by decide, by decide, by decide, by decide, by decide,
    deleted_exactly_once fixedClock [] quietClient (7 * day) hour [] [] oldPost ()
      (by decide) (epoch - 10 * day) (by decide) (by decide) (by decide) (by decide) (by decide)⟩

/-- C7 fails as stated: the client returns a timeline that holds post 4 twice
(and post 3 between), each entry older than the limit; the pass passes the
identifier 4 to `DeleteTweet` twice. -/
theorem deleted_at_most_once_counterexample :
    deletedIds (deleteFromTimeline fixedClock [] echoClient (7 * day) hour ()).calls = [4, 3, 4] ∧
    (deletedIds (deleteFromTimeline fixedClock [] echoClient (7 * day) hour ()).calls).count 4 =
      2 ∧
    ¬ (deletedIds (deleteFromTimeline fixedClock [] echoClient (7 * day) hour ()).calls).Nodup := by
  decide

/-- C7, amended: within one pass no identifier is passed to `DeleteTweet` more
often than it occurs among the entries of the timeline; so when the
identifiers of the timeline are pairwise distinct, no identifier is passed to
`DeleteTweet` more than once. -/
theorem deleted_at_most_once (s : σ) :
    (∀ id, (deletedIds (deleteFromTimeline clock whitelist api tweetAgeLimit interactionAgeLimit
      s).calls).count id ≤ ((getTimeline api s).val.1.map Tweet.Id).count id) ∧
    (((getTimeline api s).val.1.map Tweet.Id).Nodup → (deletedIds (deleteFromTimeline clock
      whitelist api tweetAgeLimit interactionAgeLimit s).calls).Nodup) :=
  ⟨fun id => (deleteFromTimeline_deletedIds_sublist clock whitelist api tweetAgeLimit
      interactionAgeLimit s).count_le id,
    fun h => (deleteFromTimeline_deletedIds_sublist clock whitelist api tweetAgeLimit
      interactionAgeLimit s).nodup h⟩

/-- C8: when `GetUserTimeline` returns an error, whatever timeline comes with
it, `getTimeline` yields the empty list, and the pass ends after that one call:
no `DeleteTweet`, no `GetSelf`, no `GetSearch`. -/
theorem fetch_failure_is_noop (s : σ) (err : Error)
    (herr : (api.GetUserTimeline [("count", "200"), ("include_rts", "true")] s).1.2 = some err) :
    (getTimeline api s).val = ([], some err) ∧
    (deleteFromTimeline clock whitelist api tweetAgeLimit interactionAgeLimit s).calls =
      [Call.GetUserTimeline [("count", "200"), ("include_rts", "true")]] ∧
    (deleteFromTimeline clock whitelist api tweetAgeLimit interactionAgeLimit s).st =
      (api.GetUserTimeline [("count", "200"), ("include_rts", "true")] s).2 := by
  have hget : getTimeline api s = ⟨([], some err), [Call.GetUserTimeline [("count", "200"), ("include_rts", "true")]],
      (api.GetUserTimeline [("count", "200"), ("include_rts", "true")] s).2⟩ := by
    simp only [getTimeline, Values.Add, List.nil_append, List.cons_append]
    rw [herr]
  refine ⟨by rw [hget], ?_, ?_⟩
  · simp only [deleteFromTimeline, hget, deleteLoop, List.append_nil]
  · simp only [deleteFromTimeline, hget, deleteLoop]

/-- C8, on an example: the fetch fails and hands back post 1, ten days old,
together with the error. -/
theorem fetch_failure_is_noop_witness :
    (failingClient.GetUserTimeline [("count", "200"), ("include_rts", "true")] ()).1 =
      ([oldPost], some "timeline unavailable") ∧
    (getTimeline failingClient ()).val = ([], some "timeline unavailable") ∧
    (deleteFromTimeline fixedClock [] failingClient (7 * day) hour ()).calls =
      [Call.GetUserTimeline [("count", "200"), ("include_rts", "true")]] ∧
    (deleteFromTimeline fixedClock [] failingClient (7 * day) hour ()).st =
      (failingClient.GetUserTimeline [("count", "200"), ("include_rts", "true")] ()).2 :=
  ⟨by decide, fetch_failure_is_noop fixedClock [] failingClient (7 * day) hour () "timeline unavailable" (by decide)⟩

/-- C9: an entry of the timeline whose timestamp does not parse is skipped: its
turn makes no call on the client and leaves the world as it found it, and the
calls and the final state of the pass are those of the loop run over the
timeline without that entry. -/
theorem unparsable_entry_skipped (pre post : List Tweet) (tweet : Tweet) (s : σ)
    (htl : (getTimeline api s).val.1 = pre ++ tweet :: post)
    (hbad : tweet.CreatedAtTime = none) :
    (entryTurn clock whitelist api tweetAgeLimit interactionAgeLimit pre tweet s).calls = [] ∧
    (entryTurn clock whitelist api tweetAgeLimit interactionAgeLimit pre tweet s).st =
      (entryState clock whitelist api tweetAgeLimit interactionAgeLimit pre s) ∧
    (deleteFromTimeline clock whitelist api tweetAgeLimit interactionAgeLimit s).calls =
      (getTimeline api s).calls ++ (deleteLoop clock whitelist api tweetAgeLimit
      interactionAgeLimit (pre ++ post) (getTimeline api s).st).calls ∧
    (deleteFromTimeline clock whitelist api tweetAgeLimit interactionAgeLimit s).st =
      (deleteLoop clock whitelist api tweetAgeLimit interactionAgeLimit (pre ++ post) (getTimeline
      api s).st).st := by
  have hstep := deleteStep_unparsable clock whitelist api tweetAgeLimit interactionAgeLimit tweet
    (entryState clock whitelist api tweetAgeLimit interactionAgeLimit pre s) hbad
  refine ⟨by rw [entryTurn, hstep], by rw [entryTurn, hstep], ?_, ?_⟩
  all_goals simp only [entryState] at hstep
  · simp only [deleteFromTimeline, htl, deleteLoop_append, deleteLoop, hstep, entryState,
      List.nil_append]
  · simp only [deleteFromTimeline, htl, deleteLoop_append, deleteLoop, hstep, entryState]

/-- C9, on an example: the timeline is post 2, an entry that does not parse,
and post 1. -/
theorem unparsable_entry_skipped_witness :
    (getTimeline garbledClient ()).val.1 = [postAged 2 (8 * day)] ++ garbledPost :: [oldPost] ∧
    garbledPost.CreatedAtTime = none ∧
    (entryTurn fixedClock [] garbledClient (7 * day) hour [postAged 2 (8 * day)] garbledPost
      ()).calls = [] ∧
    (entryTurn fixedClock [] garbledClient (7 * day) hour [postAged 2 (8 * day)] garbledPost
      ()).st = (entryState fixedClock [] garbledClient (7 * day) hour [postAged 2 (8 * day)] ()) ∧
    (deleteFromTimeline fixedClock [] garbledClient (7 * day) hour ()).calls = (getTimeline
      garbledClient ()).calls ++ (deleteLoop fixedClock [] garbledClient (7 * day) hour ([postAged
      2 (8 * day)] ++ [oldPost]) (getTimeline garbledClient ()).st).calls ∧
    (deleteFromTimeline fixedClock [] garbledClient (7 * day) hour ()).st = (deleteLoop
      fixedClock [] garbledClient (7 * day) hour ([postAged 2 (8 * day)] ++ [oldPost])
      (getTimeline garbledClient ()).st).st :=
  ⟨by decide, by decide,
    unparsable_entry_skipped fixedClock [] garbledClient (7 * day) hour [postAged 2 (8 * day)] [oldPost] garbledPost ()
      (by decide) (by decide)⟩

/-- C10: for two clients that differ only in the tweet and the error their
`DeleteTweet` returns (its effect on the world being the same), the pass makes
the same calls, in the same order, and ends in the same state: whether a
delete fails changes neither the rest of the pass nor any later decision. -/
theorem delete_errors_isolated (outcome : Int → Bool → σ → Tweet × Option Error) (s : σ) :
    deleteFromTimeline clock whitelist (withDeleteOutcome api outcome) tweetAgeLimit
      interactionAgeLimit s = deleteFromTimeline clock whitelist api tweetAgeLimit
      interactionAgeLimit s := by
  have hget : getTimeline (withDeleteOutcome api outcome) s = getTimeline api s := rfl
  simp only [deleteFromTimeline, hget, deleteLoop_withDeleteOutcome]

end claims

/-! ## The interaction check -/

section check

variable {σ : Type} (clock : σ → Time × σ) (whitelist : List String)
  (api : TwitterAPIClient σ) (tweetAgeLimit interactionAgeLimit : Duration)

/-- C11: if `GetSelf` returns an error, or `GetSelf` succeeds and `GetSearch`
returns an error, then `getRepliesForTweet` returns the empty list and
`hasOngoingInteractions` returns false; when `GetSelf` fails the check makes
that one call and no `GetSearch`; and an entry with this identifier that is
old enough and not whitelisted, whose check starts in this state, is deleted. -/
theorem interaction_check_fails_open (tweetID : Int) (s : σ)
    (hfail : (∃ e, (api.GetSelf [] s).1.2 = some e) ∨ ((api.GetSelf [] s).1.2 = none ∧ ∃ e,
      (replySearch api tweetID s).1.2 = some e)) :
    (getRepliesForTweet api tweetID s).val = [] ∧
    (hasOngoingInteractions clock api tweetID interactionAgeLimit s).val = false ∧
    ((∃ e, (api.GetSelf [] s).1.2 = some e) → (hasOngoingInteractions clock api tweetID
      interactionAgeLimit s).calls = [Call.GetSelf []]) ∧
    (∀ (tweet : Tweet) (t : Time) (s0 : σ), tweet.Id = tweetID → tweet.CreatedAtTime = some t →
      (timeSince clock t s0).2 = s → tweetAgeLimit < (timeSince clock t s0).1 → isWhitelisted
      whitelist tweet.Id = false → Call.DeleteTweet tweet.Id true ∈ (deleteStep clock whitelist
      api tweetAgeLimit interactionAgeLimit tweet s0).calls) := by
  have hval : (getRepliesForTweet api tweetID s).val = [] := by
    rcases hfail with ⟨e, he⟩ | ⟨hself, e, he⟩
    · rw [getRepliesForTweet_self_err api tweetID s e he]
    · exact (getRepliesForTweet_search_err api tweetID s e hself he).1
  have hfalse : (hasOngoingInteractions clock api tweetID interactionAgeLimit s).val = false := by
    simp only [hasOngoingInteractions, hval, repliesLoop]
  refine ⟨hval, hfalse, ?_, ?_⟩
  · rintro ⟨e, he⟩
    simp only [hasOngoingInteractions, getRepliesForTweet_self_err api tweetID s e he]
  · intro tweet t s0 hid ht hs hold hnw
    subst hid
    rw [← hs] at hfalse
    exact (deleteStep_delete_iff clock whitelist api _ _ tweet s0).2 ⟨t, ht, hold, hnw, hfalse⟩

/-- C11, on two examples: post 1 has a reply that is ten minutes old; in the
first `GetSelf` fails, in the second `GetSearch` fails. -/
theorem interaction_check_fails_open_witness :
    ((∃ e, (anonymousClient.GetSelf [] ()).1.2 = some e) ∨ ((anonymousClient.GetSelf [] ()).1.2
      = none ∧ ∃ e, (replySearch anonymousClient 1 ()).1.2 = some e)) ∧
    (getRepliesForTweet anonymousClient 1 ()).val = [] ∧
    (hasOngoingInteractions fixedClock anonymousClient 1 hour ()).val = false ∧
    ((∃ e, (anonymousClient.GetSelf [] ()).1.2 = some e) → (hasOngoingInteractions fixedClock
      anonymousClient 1 hour ()).calls = [Call.GetSelf []]) ∧
    (∀ (tweet : Tweet) (t : Time) (s0 : Unit), tweet.Id = 1 → tweet.CreatedAtTime = some t →
      (timeSince fixedClock t s0).2 = () → (7 * day) < (timeSince fixedClock t s0).1 →
      isWhitelisted [] tweet.Id = false → Call.DeleteTweet tweet.Id true ∈ (deleteStep fixedClock
      [] anonymousClient (7 * day) hour tweet s0).calls) ∧
    ((∃ e, (searchlessClient.GetSelf [] ()).1.2 = some e) ∨ ((searchlessClient.GetSelf []
      ()).1.2 = none ∧ ∃ e, (replySearch searchlessClient 1 ()).1.2 = some e)) ∧
    (getRepliesForTweet searchlessClient 1 ()).val = [] ∧
    (hasOngoingInteractions fixedClock searchlessClient 1 hour ()).val = false ∧
    ((∃ e, (searchlessClient.GetSelf [] ()).1.2 = some e) → (hasOngoingInteractions fixedClock
      searchlessClient 1 hour ()).calls = [Call.GetSelf []]) ∧
    (∀ (tweet : Tweet) (t : Time) (s0 : Unit), tweet.Id = 1 → tweet.CreatedAtTime = some t →
      (timeSince fixedClock t s0).2 = () → (7 * day) < (timeSince fixedClock t s0).1 →
      isWhitelisted [] tweet.Id = false → Call.DeleteTweet tweet.Id true ∈ (deleteStep fixedClock
      [] searchlessClient (7 * day) hour tweet s0).calls) := by
  have h1 := interaction_check_fails_open fixedClock [] anonymousClient (7 * day) hour 1 ()
    (Or.inl ⟨"not authorized", by decide⟩)
  have h2 := interaction_check_fails_open fixedClock [] searchlessClient (7 * day) hour 1 ()
    (Or.inr ⟨by decide, "rate limited", by decide⟩)
  exact ⟨Or.inl ⟨"not authorized", by decide⟩, h1.1, h1.2.1, h1.2.2.1, h1.2.2.2,
    Or.inr ⟨by decide, "rate limited", by decide⟩, h2⟩

end check

/-! ## The whitelist -/

theorem toDigitsCore_length_ge (b fuel n : Nat) (ds : List Char) :
    ds.length ≤ (Nat.toDigitsCore b fuel n ds).length := by
  induction fuel generalizing n ds with
  | zero => simp [Nat.toDigitsCore]
  | succ f ih =>
    simp only [Nat.toDigitsCore]
    split
    · simp
    · exact Nat.le_trans (by simp) (ih _ _)

theorem natRepr_length_pos (n : Nat) : 0 < (Nat.repr n).length := by
  simp only [Nat.repr, Nat.toDigits, Nat.toDigitsCore, String.length, List.asString]
  split
  · simp
  · exact Nat.lt_of_lt_of_le (by simp) (toDigitsCore_length_ge _ _ _ _)

theorem FormatInt_negSucc (m : Nat) : FormatInt (Int.negSucc m) = "-" ++ toString (m + 1) := rfl

theorem FormatInt_length_pos (id : Int) : 0 < (FormatInt id).length := by
  cases id with
  | ofNat n => exact natRepr_length_pos n
  | negSucc m =>
    rw [FormatInt_negSucc, String.length_append]
    exact Nat.lt_of_lt_of_le (by decide) (Nat.le_add_right _ _)

theorem string_length_pos (s : String) (h : s ≠ "") : 0 < s.length := by
  rcases Nat.eq_zero_or_pos s.length with h0 | h0
  · exact absurd (String.ext (List.length_eq_zero.1 h0)) h
  · exact h0

/-- A whitelist entry that is empty, or the decimal string of `id` with text
before or after it, or the decimal string of a negative `id` with text between
the sign and the digits, is not the decimal string of `id`. -/
theorem otherForm_ne (id : Int) (w : String)
    (h : w = "" ∨
      (∃ pre post : String, (pre ≠ "" ∨ post ≠ "") ∧ w = pre ++ FormatInt id ++ post) ∨
      (∃ (m : Nat) (zeros : String), id = Int.negSucc m ∧ zeros ≠ "" ∧
        w = "-" ++ zeros ++ toString (m + 1))) :
    w ≠ FormatInt id := by
  intro heq
  have hlen : w.length = (FormatInt id).length := by rw [heq]
  have hpos := FormatInt_length_pos id
  rcases h with h | ⟨pre, post, hne, h⟩ | ⟨m, zeros, hid, hz, h⟩
  · rw [h] at hlen
    simp at hlen
    omega
  · rw [h, String.length_append, String.length_append] at hlen
    rcases hne with hne | hne
    · have := string_length_pos pre hne
      omega
    · have := string_length_pos post hne
      omega
  · have hzl := string_length_pos zeros hz
    rw [h, hid, FormatInt_negSucc, String.length_append, String.length_append,
      String.length_append] at hlen
    omega

/-- C12: `isWhitelisted` is true if and only if some entry of the whitelist is,
as a string, the decimal string of the identifier (negative identifiers
included); the decimal string is never empty; and a whitelist made of entries
in another form (the empty string, the decimal string with characters in front
or behind, such as a zero, a `+` or a blank, or a negative number with
characters between the sign and the digits) never matches. -/
theorem isWhitelisted_exact_match (whitelist : List String) (id : Int) :
    (isWhitelisted whitelist id = true ↔ ∃ w ∈ whitelist, w = FormatInt id) ∧
    FormatInt id ≠ "" ∧
    ((∀ w ∈ whitelist, w = "" ∨
        (∃ pre post : String, (pre ≠ "" ∨ post ≠ "") ∧ w = pre ++ FormatInt id ++ post) ∨
        (∃ (m : Nat) (zeros : String), id = Int.negSucc m ∧ zeros ≠ "" ∧
          w = "-" ++ zeros ++ toString (m + 1))) →
      isWhitelisted whitelist id = false) := by
  refine ⟨?_, ?_, ?_⟩
  · rw [isWhitelisted_iff]
    constructor
    · intro h
      exact ⟨_, h, rfl⟩
    · rintro ⟨w, hw, rfl⟩
      exact hw
  · intro h
    have := FormatInt_length_pos id
    rw [h] at this
    simp at this
  · intro hall
    rw [Bool.eq_false_iff]
    intro htrue
    have hmem := (isWhitelisted_iff whitelist id).1 htrue
    exact otherForm_ne id _ (hall _ hmem) rfl

/-- C12, on examples: the identifiers 7 and -7 against whitelists that hold
their decimal string, and against whitelists that hold only other forms. -/
theorem isWhitelisted_exact_match_witness :
    FormatInt 7 = "7" ∧ FormatInt (-7) = "-7" ∧
    FormatInt (-9223372036854775808) = "-9223372036854775808" ∧
    isWhitelisted ["12", "7"] 7 = true ∧ isWhitelisted ["7", "-7"] (-7) = true ∧
    isWhitelisted ["", "07", "+7", " 7", "7 ", "7.0"] 7 = false ∧
    isWhitelisted ["-07", " -7", "-7 "] (-7) = false := by
  refine ⟨by decide, by decide, by decide, by decide, by decide, ?_, ?_⟩
  · refine (isWhitelisted_exact_match _ 7).2.2 ?_
    intro w hw
    simp only [List.mem_cons, List.mem_singleton, List.not_mem_nil, or_false] at hw
    rcases hw with h | h | h | h | h | h
    · exact Or.inl h
    · exact Or.inr (Or.inl ⟨"0", "", Or.inl (by decide), by rw [h]; decide⟩)
    · exact Or.inr (Or.inl ⟨"+", "", Or.inl (by decide), by rw [h]; decide⟩)
    · exact Or.inr (Or.inl ⟨" ", "", Or.inl (by decide), by rw [h]; decide⟩)
    · exact Or.inr (Or.inl ⟨"", " ", Or.inr (by decide), by rw [h]; decide⟩)
    · exact Or.inr (Or.inl ⟨"", ".0", Or.inr (by decide), by rw [h]; decide⟩)
  · refine (isWhitelisted_exact_match _ (-7)).2.2 ?_
    intro w hw
    simp only [List.mem_cons, List.mem_singleton, List.not_mem_nil, or_false] at hw
    rcases hw with h | h | h
    · exact Or.inr (Or.inr ⟨6, "0", by decide, by decide, by rw [h]; decide⟩)
    · exact Or.inr (Or.inl ⟨" ", "", Or.inl (by decide), by rw [h]; decide⟩)
    · exact Or.inr (Or.inl ⟨"", " ", Or.inr (by decide), by rw [h]; decide⟩)

/-! ## The whitelist string -/

theorem splitOn_length (a : Char) (l : List Char) : (l.splitOn a).length = l.count a + 1 := by
  induction l with
  | nil => rfl
  | cons x xs ih =>
    simp only [List.splitOn, List.splitOnP_cons] at ih ⊢
    by_cases h : x = a
    · subst h
      simp [ih]
    · have hb : (x == a) = false := by simpa using h
      simp [hb, h, ih, List.count_cons]

theorem splitOn_free (a : Char) (l : List Char) : ∀ f ∈ l.splitOn a, a ∉ f := by
  induction l with
  | nil => simp
  | cons x xs ih =>
    simp only [List.splitOn, List.splitOnP_cons] at ih ⊢
    by_cases h : x = a
    · subst h
      simp only [beq_self_eq_true, if_true, List.mem_cons]
      rintro f (hf | hf)
      · subst hf; simp
      · exact ih f hf
    · have hb : (x == a) = false := by simpa using h
      simp only [hb, Bool.false_eq_true, if_false]
      cases hsp : List.splitOnP (fun y => y == a) xs with
      | nil => simp [List.modifyHead]
      | cons hd tl =>
        rw [hsp] at ih
        simp only [List.modifyHead, List.mem_cons]
        rintro f (hf | hf)
        · subst hf
          have := ih hd (List.mem_cons_self _ _)
          simp only [List.mem_cons, not_or]
          exact ⟨fun hax => h hax.symm, this⟩
        · exact ih f (List.mem_cons_of_mem _ hf)

theorem intercalate_go_data (acc sep : String) (l : List String) :
    (String.intercalate.go acc sep l).data
      = acc.data ++ (l.map (fun a => sep.data ++ a.data)).flatten := by
  induction l generalizing acc with
  | nil => simp [String.intercalate.go]
  | cons a as ih => simp [String.intercalate.go, ih, List.append_assoc]

theorem list_intercalate_cons (sep x : List Char) (xs : List (List Char)) :
    sep.intercalate (x :: xs) = x ++ (xs.map (fun a => sep ++ a)).flatten := by
  induction xs generalizing x with
  | nil => simp [List.intercalate]
  | cons y ys ih =>
    have h := ih y
    simp only [List.intercalate, List.intersperse, List.flatten, List.map] at h ⊢
    rw [h]
    simp [List.append_assoc]

theorem intercalate_data (sep : String) (l : List String) :
    (String.intercalate sep l).data = sep.data.intercalate (l.map String.data) := by
  cases l with
  | nil => simp [String.intercalate, List.intercalate]
  | cons a as =>
    rw [String.intercalate, intercalate_go_data, List.map_cons, list_intercalate_cons,
      List.map_map]
    rfl

theorem map_mk_data (l : List String) : (l.map String.data).map String.mk = l := by
  induction l with
  | nil => rfl
  | cons a as ih => simp [ih]

theorem map_data_mk (l : List (List Char)) : (l.map String.mk).map String.data = l := by
  induction l with
  | nil => rfl
  | cons a as ih => simp [ih]

/-- C13: `getWhitelist ""` is the empty list; for a string `s` that is not
empty, `getWhitelist s` has one entry more than `s` has colons, no entry
contains a colon, the entries joined with `:` give back `s`, and it is the only
such list: any way of writing `s` as colon-free fields joined with `:` is
`getWhitelist s`; so a string is an entry exactly when it is one of the
colon-separated fields of `s`. -/
theorem getWhitelist_fields (s : String) :
    getWhitelist "" = [] ∧
    (s ≠ "" →
      (getWhitelist s).length = s.data.count ':' + 1 ∧
      (∀ x ∈ getWhitelist s, ':' ∉ x.data) ∧
      String.intercalate ":" (getWhitelist s) = s ∧
      (∀ fields : List String, fields ≠ [] → (∀ x ∈ fields, ':' ∉ x.data) →
        String.intercalate ":" fields = s → getWhitelist s = fields) ∧
      (∀ x : String, x ∈ getWhitelist s ↔
        ∃ fields : List String, (∀ y ∈ fields, ':' ∉ y.data) ∧
          String.intercalate ":" fields = s ∧ x ∈ fields)) := by
  refine ⟨by simp [getWhitelist], ?_⟩
  intro hs
  have hdef : getWhitelist s = (s.data.splitOn ':').map String.mk := by
    simp [getWhitelist, hs, stringsSplit]
  have hfree : ∀ x ∈ getWhitelist s, ':' ∉ x.data := by
    intro x hx
    rw [hdef, List.mem_map] at hx
    obtain ⟨f, hf, rfl⟩ := hx
    exact splitOn_free ':' s.data f hf
  have hjoin : String.intercalate ":" (getWhitelist s) = s := by
    apply String.ext
    rw [intercalate_data, hdef, map_data_mk]
    exact List.intercalate_splitOn s.data ':'
  have huniq : ∀ fields : List String, fields ≠ [] → (∀ x ∈ fields, ':' ∉ x.data) →
      String.intercalate ":" fields = s → getWhitelist s = fields := by
    intro fields hne hfr hj
    have hdata : s.data = [':'].intercalate (fields.map String.data) := by
      rw [← hj, intercalate_data]
    rw [hdef, hdata, List.splitOn_intercalate (fields.map String.data) ':' ?_ ?_, map_mk_data]
    · intro l hl
      obtain ⟨x, hx, rfl⟩ := List.mem_map.1 hl
      exact hfr x hx
    · simpa using hne
  refine ⟨?_, hfree, hjoin, huniq, ?_⟩
  · rw [hdef, List.length_map, splitOn_length]
  · intro x
    constructor
    · intro hx
      exact ⟨getWhitelist s, hfree, hjoin, hx⟩
    · rintro ⟨fields, hfr, hj, hx⟩
      rw [huniq fields (List.ne_nil_of_mem hx) hfr hj]
      exact hx

/-- C13, on an example: a whitelist string with an empty field in the middle
and one at the end. -/
theorem getWhitelist_fields_witness :
    ("1:22::3:" : String) ≠ "" ∧
    (getWhitelist "1:22::3:").length = "1:22::3:".data.count ':' + 1 ∧
    String.intercalate ":" (getWhitelist "1:22::3:") = "1:22::3:" ∧
    getWhitelist "1:22::3:" = ["1", "22", "", "3", ""] := by
  have h := (getWhitelist_fields "1:22::3:").2 (by decide)
  exact ⟨by decide, h.1, h.2.2.1,
    h.2.2.2.1 ["1", "22", "", "3", ""] (by decide) (by decide) (by decide)⟩

/-! ## Loading the configuration -/

theorem osGetenv_eq_empty (env : Environ) (name : String) :
    osGetenv env name = "" ↔ env name = none ∨ env name = some "" := by
  unfold osGetenv
  cases h : env name with
  | none => simp
  | some v => simp

/-- C14 fails as stated, in both directions.  With the six variables of the
specification set (`CONSUMER_KEY`, ... without the prefix `TWITTER_`),
`setVariables` panics on `TWITTER_CONSUMER_KEY`; and with
`TWITTER_CONSUMER_KEY`, ... set and `CONSUMER_KEY`, `CONSUMER_SECRET`,
`ACCESS_TOKEN`, `ACCESS_TOKEN_SECRET` absent, it completes. -/
theorem setVariables_aborts_iff_counterexample :
    (∀ name ∈ ["CONSUMER_KEY", "CONSUMER_SECRET", "ACCESS_TOKEN", "ACCESS_TOKEN_SECRET",
        "MAX_TWEET_AGE", "TWEET_INTERACTION_TIMEOUT"], unprefixedEnviron name = some "x") ∧
    setVariables unprefixedEnviron
      = Except.error "Missing required environment variable TWITTER_CONSUMER_KEY" ∧
    (∀ name ∈ ["CONSUMER_KEY", "CONSUMER_SECRET", "ACCESS_TOKEN", "ACCESS_TOKEN_SECRET"],
        prefixedEnviron name = none) ∧
    setVariables prefixedEnviron = Except.ok ⟨"x", "x", "x", "x", "x", "x", []⟩ :=
  ⟨by decide, rfl, by decide, rfl⟩

/-- C14, amended: `setVariables` panics if and only if at least one of
`TWITTER_CONSUMER_KEY`, `TWITTER_CONSUMER_SECRET`, `TWITTER_ACCESS_TOKEN`,
`TWITTER_ACCESS_TOKEN_SECRET`, `MAX_TWEET_AGE`, `TWEET_INTERACTION_TIMEOUT` is
absent or empty; when the six are set to non-empty values it completes,
whether or not `WHITELIST` is set, and assigns their values and the parsed
whitelist. -/
theorem setVariables_aborts_iff (env : Environ) :
    ((∃ msg, setVariables env = Except.error msg) ↔
      ∃ name ∈ requiredVariables, env name = none ∨ env name = some "") ∧
    ((∀ name ∈ requiredVariables, ¬ (env name = none ∨ env name = some "")) →
      setVariables env = Except.ok
        ⟨osGetenv env "TWITTER_CONSUMER_KEY", osGetenv env "TWITTER_CONSUMER_SECRET",
          osGetenv env "TWITTER_ACCESS_TOKEN", osGetenv env "TWITTER_ACCESS_TOKEN_SECRET",
          osGetenv env "MAX_TWEET_AGE", osGetenv env "TWEET_INTERACTION_TIMEOUT",
          getWhitelist (osGetenv env "WHITELIST")⟩) := by
  simp only [← osGetenv_eq_empty]
  by_cases h1 : osGetenv env "TWITTER_CONSUMER_KEY" = ""
  · simp [setVariables, getenv, requiredVariables, h1]
  by_cases h2 : osGetenv env "TWITTER_CONSUMER_SECRET" = ""
  · simp [setVariables, getenv, requiredVariables, h1, h2]
  by_cases h3 : osGetenv env "TWITTER_ACCESS_TOKEN" = ""
  · simp [setVariables, getenv, requiredVariables, h1, h2, h3]
  by_cases h4 : osGetenv env "TWITTER_ACCESS_TOKEN_SECRET" = ""
  · simp [setVariables, getenv, requiredVariables, h1, h2, h3, h4]
  by_cases h5 : osGetenv env "MAX_TWEET_AGE" = ""
  · simp [setVariables, getenv, requiredVariables, h1, h2, h3, h4, h5]
  by_cases h6 : osGetenv env "TWEET_INTERACTION_TIMEOUT" = ""
  · simp [setVariables, getenv, requiredVariables, h1, h2, h3, h4, h5, h6]
  simp [setVariables, getenv, requiredVariables, h1, h2, h3, h4, h5, h6]

/-! ## The replies and the order of the deletions -/

section replies

variable {σ : Type} (clock : σ → Time × σ) (whitelist : List String)
  (api : TwitterAPIClient σ) (tweetAgeLimit interactionAgeLimit : Duration)

theorem getRepliesForTweet_calls_ok (tweetID : Int) (s : σ)
    (hself : (api.GetSelf [] s).1.2 = none) :
    (getRepliesForTweet api tweetID s).calls
      = [Call.GetSelf [], Call.GetSearch ("to:" ++ (api.GetSelf [] s).1.1.ScreenName)
          [("count", "200"), ("since_id", FormatInt tweetID)]] := by
  simp only [getRepliesForTweet, hself, Values.Add, List.nil_append, List.cons_append]
  split <;> rfl

/-- Each elapsed time the check measures is that of a reply with a timestamp
that parses, read from the clock in some state. -/
theorem replyAges_elapsed (replies : List Tweet) (s : σ) (p : Tweet × Duration)
    (h : p ∈ replyAges clock replies s) :
    p.1 ∈ replies ∧ ∃ t u, p.1.CreatedAtTime = some t ∧ p.2 = (timeSince clock t u).1 := by
  induction replies generalizing s with
  | nil => simp [replyAges] at h
  | cons r rs ih =>
    unfold replyAges at h
    cases hr : r.CreatedAtTime with
    | none =>
      rw [hr] at h
      obtain ⟨h1, h2⟩ := ih _ h
      exact ⟨List.mem_cons_of_mem _ h1, h2⟩
    | some t =>
      rw [hr] at h
      simp only [List.mem_cons] at h
      rcases h with h | h
      · subst h
        exact ⟨List.mem_cons_self _ _, t, s, hr, rfl⟩
      · obtain ⟨h1, h2⟩ := ih _ h
        exact ⟨List.mem_cons_of_mem _ h1, h2⟩

theorem replyAges_unparsable (replies : List Tweet) (s : σ)
    (h : ∀ r ∈ replies, r.CreatedAtTime = none) : replyAges clock replies s = [] := by
  induction replies generalizing s with
  | nil => rfl
  | cons r rs ih =>
    unfold replyAges
    rw [h r (List.mem_cons_self _ _)]
    exact ih s (fun q hq => h q (List.mem_cons_of_mem _ hq))

/-- C15: when `GetSelf` and `GetSearch` both succeed, `getRepliesForTweet`
returns the statuses of the search response whose `InReplyToStatusID` equals
`tweetID`, each as it was, in their original order: the filter over the shared
backing array gives the plain filter of the statuses.  So the result is a
sub-sequence of the statuses, and a status is in it exactly when it is one of
the statuses and is a reply to `tweetID`. -/
theorem getRepliesForTweet_filters (tweetID : Int) (s : σ)
    (hself : (api.GetSelf [] s).1.2 = none)
    (hsearch : (replySearch api tweetID s).1.2 = none) :
    (getRepliesForTweet api tweetID s).val
      = (replySearch api tweetID s).1.1.Statuses.filter
          (fun r => decide (r.InReplyToStatusID = tweetID)) ∧
    (getRepliesForTweet api tweetID s).val.Sublist (replySearch api tweetID s).1.1.Statuses ∧
    (∀ r, r ∈ (getRepliesForTweet api tweetID s).val ↔
      r ∈ (replySearch api tweetID s).1.1.Statuses ∧ r.InReplyToStatusID = tweetID) ∧
    (getRepliesForTweet api tweetID s).calls
      = [Call.GetSelf [], Call.GetSearch ("to:" ++ (api.GetSelf [] s).1.1.ScreenName)
          [("count", "200"), ("since_id", FormatInt tweetID)]] := by
  have hval := (getRepliesForTweet_ok api tweetID s hself hsearch).1
  rw [repliesTo] at hval
  refine ⟨hval, ?_, ?_, getRepliesForTweet_calls_ok api tweetID s hself⟩
  · rw [hval]
    exact List.filter_sublist _
  · intro r
    rw [hval, List.mem_filter]
    simp

/-- C15, on an example: the search answers a reply to post 1, a reply to
post 2 and another reply to post 1. -/
theorem getRepliesForTweet_filters_witness :
    (staleClient.GetSelf [] ()).1.2 = none ∧
    (replySearch staleClient 1 ()).1.2 = none ∧
    (replySearch staleClient 1 ()).1.1.Statuses
      = [replyAged 9 1 hour, replyAged 7 2 minute, replyAged 8 1 (3 * day)] ∧
    (getRepliesForTweet staleClient 1 ()).val = [replyAged 9 1 hour, replyAged 8 1 (3 * day)] :=
  ⟨by decide, by decide, by decide,
    (getRepliesForTweet_filters staleClient 1 () (by decide) (by decide)).1.trans (by decide)⟩

/-- C16: `hasOngoingInteractions` returns true if and only if one of the
replies returned by `getRepliesForTweet` has a timestamp that parses and an
elapsed time, read at its turn in the loop, strictly below
`interactionAgeLimit`.  The elapsed times are those of replies of the list
whose timestamp parses; when no reply parses, and when the list is empty, the
result is false. -/
theorem hasOngoingInteractions_iff (tweetID : Int) (s : σ) :
    ((hasOngoingInteractions clock api tweetID interactionAgeLimit s).val = true ↔
      ∃ p ∈ replyAges clock (getRepliesForTweet api tweetID s).val
        (getRepliesForTweet api tweetID s).st, p.2 < interactionAgeLimit) ∧
    (∀ p ∈ replyAges clock (getRepliesForTweet api tweetID s).val
        (getRepliesForTweet api tweetID s).st,
      p.1 ∈ (getRepliesForTweet api tweetID s).val ∧
        ∃ t u, p.1.CreatedAtTime = some t ∧ p.2 = (timeSince clock t u).1) ∧
    ((∀ r ∈ (getRepliesForTweet api tweetID s).val, r.CreatedAtTime = none) →
      (hasOngoingInteractions clock api tweetID interactionAgeLimit s).val = false) ∧
    ((getRepliesForTweet api tweetID s).val = [] →
      (hasOngoingInteractions clock api tweetID interactionAgeLimit s).val = false) := by
  have hiff : (hasOngoingInteractions clock api tweetID interactionAgeLimit s).val = true ↔
      ∃ p ∈ replyAges clock (getRepliesForTweet api tweetID s).val
        (getRepliesForTweet api tweetID s).st, p.2 < interactionAgeLimit :=
    repliesLoop_true_iff clock interactionAgeLimit _ _
  refine ⟨hiff, fun p hp => replyAges_elapsed clock _ _ p hp, ?_, ?_⟩
  · intro hnone
    rw [Bool.eq_false_iff]
    intro htrue
    obtain ⟨p, hp, _⟩ := hiff.1 htrue
    rw [replyAges_unparsable clock _ _ hnone] at hp
    exact absurd hp (List.not_mem_nil _)
  · intro hnil
    simp only [hasOngoingInteractions, hnil, repliesLoop]

/-- C17: the identifiers passed to `DeleteTweet` during one pass form, in the
order of the calls, a sub-sequence of the identifiers of the timeline; and
every `DeleteTweet` call of the pass has `trimUser` set. -/
theorem deletes_follow_timeline (s : σ) :
    (deletedIds (deleteFromTimeline clock whitelist api tweetAgeLimit interactionAgeLimit
        s).calls).Sublist ((getTimeline api s).val.1.map Tweet.Id) ∧
    ∀ id b, Call.DeleteTweet id b ∈
        (deleteFromTimeline clock whitelist api tweetAgeLimit interactionAgeLimit s).calls →
      b = true := by
  refine ⟨deleteFromTimeline_deletedIds_sublist clock whitelist api _ _ s, ?_⟩
  intro id b hcall
  simp only [deleteFromTimeline, List.mem_append, getTimeline_calls, List.mem_singleton] at hcall
  rcases hcall with hcall | hcall
  · exact absurd hcall (by simp)
  · obtain ⟨_, _, _, _, _, hb, _⟩ :=
      deleteLoop_delete_mem clock whitelist api _ _ _ _ _ _ hcall
    exact hb

end replies

/-! ## The size of a pass -/

section size

variable {σ : Type} (clock : σ → Time × σ) (whitelist : List String)
  (api : TwitterAPIClient σ) (tweetAgeLimit interactionAgeLimit : Duration)

theorem selfCalls_append (xs ys : List Call) :
    selfCalls (xs ++ ys) = selfCalls xs + selfCalls ys := by
  induction xs with
  | nil => simp [selfCalls]
  | cons c cs ih =>
    cases c <;> simp [selfCalls, ih]
    omega

theorem searchCalls_append (xs ys : List Call) :
    searchCalls (xs ++ ys) = searchCalls xs + searchCalls ys := by
  induction xs with
  | nil => simp [searchCalls]
  | cons c cs ih =>
    cases c <;> simp [searchCalls, ih]
    omega

theorem getRepliesForTweet_counts (tweetID : Int) (s : σ) :
    selfCalls (getRepliesForTweet api tweetID s).calls = 1 ∧
    searchCalls (getRepliesForTweet api tweetID s).calls ≤ 1 := by
  unfold getRepliesForTweet
  simp only
  split
  · simp [selfCalls, searchCalls]
  · split <;> simp [selfCalls, searchCalls]

theorem oldAndUnlisted_iff (tweet : Tweet) (s : σ) :
    oldAndUnlisted clock whitelist tweetAgeLimit tweet s = true ↔
      ∃ t, tweet.CreatedAtTime = some t ∧ tweetAgeLimit < (timeSince clock t s).1 ∧
        isWhitelisted whitelist tweet.Id = false := by
  unfold oldAndUnlisted
  cases h : tweet.CreatedAtTime with
  | none => simp
  | some t => simp

theorem deleteStep_counts (tweet : Tweet) (s : σ) :
    selfCalls (deleteStep clock whitelist api tweetAgeLimit interactionAgeLimit tweet s).calls
      = (if oldAndUnlisted clock whitelist tweetAgeLimit tweet s then 1 else 0) ∧
    searchCalls (deleteStep clock whitelist api tweetAgeLimit interactionAgeLimit tweet s).calls
      ≤ selfCalls (deleteStep clock whitelist api tweetAgeLimit interactionAgeLimit
          tweet s).calls := by
  have hc := fun u => getRepliesForTweet_counts api tweet.Id u
  cases h : tweet.CreatedAtTime with
  | none =>
    simp [deleteStep_unparsable clock whitelist api _ _ tweet s h, oldAndUnlisted, h,
      selfCalls, searchCalls]
  | some t =>
    by_cases ho : tweetAgeLimit < (timeSince clock t s).1
    · cases hw : isWhitelisted whitelist tweet.Id with
      | true =>
        simp [deleteStep_whitelisted clock whitelist api _ _ tweet s t h ho hw, oldAndUnlisted,
          h, hw, selfCalls, searchCalls]
      | false =>
        cases hi : (hasOngoingInteractions clock api tweet.Id interactionAgeLimit
            (timeSince clock t s).2).val with
        | true =>
          rw [deleteStep_ongoing clock whitelist api _ _ tweet s t h ho hw hi]
          simp only [oldAndUnlisted, h, ho, hw, hasOngoingInteractions]
          have := hc (timeSince clock t s).2
          simp only [decide_True, Bool.not_false, Bool.and_self, if_true]
          omega
        | false =>
          rw [deleteStep_deletes clock whitelist api _ _ tweet s t h ho hw hi]
          simp only [oldAndUnlisted, h, ho, hw, hasOngoingInteractions, selfCalls_append,
            searchCalls_append, selfCalls, searchCalls]
          have := hc (timeSince clock t s).2
          simp only [decide_True, Bool.not_false, Bool.and_self, if_true]
          omega
    · rw [deleteStep_young clock whitelist api _ _ tweet s t h (not_lt.mp ho)]
      simp [oldAndUnlisted, h, ho, selfCalls, searchCalls]

theorem deleteLoop_counts (tl : List Tweet) (s : σ) :
    selfCalls (deleteLoop clock whitelist api tweetAgeLimit interactionAgeLimit tl s).calls
      = oldAndUnlistedCount clock whitelist api tweetAgeLimit interactionAgeLimit tl s ∧
    searchCalls (deleteLoop clock whitelist api tweetAgeLimit interactionAgeLimit tl s).calls
      ≤ selfCalls (deleteLoop clock whitelist api tweetAgeLimit interactionAgeLimit tl s).calls := by
  induction tl generalizing s with
  | nil => simp [deleteLoop, selfCalls, searchCalls, oldAndUnlistedCount]
  | cons p ps ih =>
    have hstep := deleteStep_counts clock whitelist api tweetAgeLimit interactionAgeLimit p s
    have hrest := ih (deleteStep clock whitelist api tweetAgeLimit interactionAgeLimit p s).st
    simp only [deleteLoop, selfCalls_append, searchCalls_append, oldAndUnlistedCount]
    constructor
    · rw [hstep.1, hrest.1]
    · omega

/-- C18 fails as stated: the client returns 201 posts, each older than the
limit, and the pass calls `DeleteTweet` 201 times. -/
theorem pass_bounded_by_200_counterexample :
    (longClient.GetUserTimeline [("count", "200"), ("include_rts", "true")] ()).1.1.length = 201 ∧
    (deletedIds (deleteFromTimeline fixedClock [] longClient (7 * day) hour ()).calls).length
      = 201 := by
  set_option maxRecDepth 100000 in decide

theorem deleteEligible_iff (tweet : Tweet) (s : σ) :
    deleteEligible clock whitelist api tweetAgeLimit interactionAgeLimit tweet s = true ↔
      ∃ t, tweet.CreatedAtTime = some t ∧ tweetAgeLimit < (timeSince clock t s).1 ∧
        isWhitelisted whitelist tweet.Id = false ∧
        (hasOngoingInteractions clock api tweet.Id interactionAgeLimit
          (timeSince clock t s).2).val = false := by
  unfold deleteEligible
  cases h : tweet.CreatedAtTime with
  | none => simp
  | some t => simp [and_assoc]

/-- The turn for an entry passes its identifier to `DeleteTweet` when the
entry is delete-eligible, and nothing otherwise. -/
theorem deleteStep_deletedIds (tweet : Tweet) (s : σ) :
    deletedIds (deleteStep clock whitelist api tweetAgeLimit interactionAgeLimit tweet s).calls
      = if deleteEligible clock whitelist api tweetAgeLimit interactionAgeLimit tweet s
          then [tweet.Id] else [] := by
  by_cases he : deleteEligible clock whitelist api tweetAgeLimit interactionAgeLimit tweet s = true
  · rw [if_pos he]
    exact deleteStep_one_delete clock whitelist api _ _ tweet s
      ((deleteStep_delete_iff clock whitelist api _ _ tweet s).2
        ((deleteEligible_iff clock whitelist api _ _ tweet s).1 he))
  · rw [if_neg he]
    refine (deleteStep_no_delete clock whitelist api _ _ tweet s ?_).1
    intro hmem
    exact he ((deleteEligible_iff clock whitelist api _ _ tweet s).2
      ((deleteStep_delete_iff clock whitelist api _ _ tweet s).1 hmem))

/-- The loop deletes exactly the delete-eligible entries of the whole list it
is given. -/
theorem deleteLoop_deletedIds (tl : List Tweet) (s : σ) :
    deletedIds (deleteLoop clock whitelist api tweetAgeLimit interactionAgeLimit tl s).calls
      = eligibleIds clock whitelist api tweetAgeLimit interactionAgeLimit tl s := by
  induction tl generalizing s with
  | nil => rfl
  | cons p ps ih =>
    simp only [deleteLoop, eligibleIds, deletedIds_append, deleteStep_deletedIds, ih]

/-- C18, amended: the pass asks `GetUserTimeline` for 200 entries
(`count=200`) and does not cut the list it gets.  When `GetUserTimeline`
returns no error the timeline of the pass is the whole returned list, and the
identifiers passed to `DeleteTweet` are exactly those of the delete-eligible
entries of that whole list, whatever its length; when it returns an error no
entry is evaluated.  So the number of `DeleteTweet` calls is at most the
length of the returned list, hence at most 200 when the client returns no more
entries than it was asked for. -/
theorem pass_bounded_by_timeline (s : σ) :
    (getTimeline api s).calls = [Call.GetUserTimeline [("count", "200"), ("include_rts", "true")]] ∧
    ((api.GetUserTimeline [("count", "200"), ("include_rts", "true")] s).1.2 = none →
      (getTimeline api s).val.1 = (api.GetUserTimeline [("count", "200"), ("include_rts", "true")] s).1.1 ∧
      deletedIds (deleteFromTimeline clock whitelist api tweetAgeLimit interactionAgeLimit
          s).calls
        = eligibleIds clock whitelist api tweetAgeLimit interactionAgeLimit
            (api.GetUserTimeline [("count", "200"), ("include_rts", "true")] s).1.1
            (api.GetUserTimeline [("count", "200"), ("include_rts", "true")] s).2) ∧
    (∀ (tweet : Tweet) (u : σ),
      deleteEligible clock whitelist api tweetAgeLimit interactionAgeLimit tweet u = true ↔
        ∃ t, tweet.CreatedAtTime = some t ∧ tweetAgeLimit < (timeSince clock t u).1 ∧
          isWhitelisted whitelist tweet.Id = false ∧
          (hasOngoingInteractions clock api tweet.Id interactionAgeLimit
            (timeSince clock t u).2).val = false) ∧
    ((api.GetUserTimeline [("count", "200"), ("include_rts", "true")] s).1.2 ≠ none →
      (deleteFromTimeline clock whitelist api tweetAgeLimit interactionAgeLimit s).calls
        = [Call.GetUserTimeline [("count", "200"), ("include_rts", "true")]]) ∧
    (deletedIds (deleteFromTimeline clock whitelist api tweetAgeLimit interactionAgeLimit
        s).calls).length
      ≤ (api.GetUserTimeline [("count", "200"), ("include_rts", "true")] s).1.1.length ∧
    ((api.GetUserTimeline [("count", "200"), ("include_rts", "true")] s).1.1.length ≤ 200 →
      (deletedIds (deleteFromTimeline clock whitelist api tweetAgeLimit interactionAgeLimit
        s).calls).length ≤ 200) := by
  have hsub := (deleteFromTimeline_deletedIds_sublist clock whitelist api tweetAgeLimit
    interactionAgeLimit s).length_le
  rw [List.length_map] at hsub
  have htl : (getTimeline api s).val.1.length
      ≤ (api.GetUserTimeline [("count", "200"), ("include_rts", "true")] s).1.1.length := by
    simp only [getTimeline, Values.Add, List.nil_append, List.cons_append]
    split <;> simp
  refine ⟨getTimeline_calls api s, ?_, deleteEligible_iff clock whitelist api _ _, ?_,
    Nat.le_trans hsub htl, fun h => Nat.le_trans (Nat.le_trans hsub htl) h⟩
  · intro hok
    have hget : getTimeline api s = ⟨((api.GetUserTimeline [("count", "200"), ("include_rts", "true")] s).1.1, none),
        [Call.GetUserTimeline [("count", "200"), ("include_rts", "true")]], (api.GetUserTimeline [("count", "200"), ("include_rts", "true")] s).2⟩ := by
      simp only [getTimeline, Values.Add, List.nil_append, List.cons_append]
      rw [hok]
    refine ⟨by rw [hget], ?_⟩
    simp only [deleteFromTimeline, hget, deletedIds_append, deleteLoop_deletedIds]
    rfl
  · intro herr
    cases he : (api.GetUserTimeline [("count", "200"), ("include_rts", "true")] s).1.2 with
    | none => exact absurd he herr
    | some err =>
      have hget : getTimeline api s = ⟨([], some err), [Call.GetUserTimeline [("count", "200"), ("include_rts", "true")]],
          (api.GetUserTimeline [("count", "200"), ("include_rts", "true")] s).2⟩ := by
        simp only [getTimeline, Values.Add, List.nil_append, List.cons_append]
        rw [he]
      simp only [deleteFromTimeline, hget, deleteLoop, List.append_nil]

/-- C18, on an example: of the three entries the client returns (a day old,
ten days old, and thirty days old but whitelisted) the second is the one that
is delete-eligible, and it is the one the pass deletes. -/
theorem pass_bounded_by_timeline_witness :
    (mixedClient.GetUserTimeline [("count", "200"), ("include_rts", "true")] ()).1.2 = none ∧
    (getTimeline mixedClient ()).val.1 = [postAged 2 day, oldPost, postAged 5 (30 * day)] ∧
    eligibleIds fixedClock ["5"] mixedClient (7 * day) hour
      [postAged 2 day, oldPost, postAged 5 (30 * day)] () = [1] ∧
    deletedIds (deleteFromTimeline fixedClock ["5"] mixedClient (7 * day) hour ()).calls = [1] := by
  have h := (pass_bounded_by_timeline fixedClock ["5"] mixedClient (7 * day) hour ()).2.1
    (by decide)
  exact ⟨by decide, h.1.trans (by decide), by decide, h.2.trans (by decide)⟩

/-- C19: the turn for an entry whose timestamp does not parse, or whose
elapsed time is not strictly greater than `tweetAgeLimit`, or whose identifier
is whitelisted, makes no call on the client, so no `GetSelf` and no
`GetSearch`; the number of `GetSelf` calls of a pass is the number of entries
that are old enough and not whitelisted (each evaluated at its turn), and the
number of `GetSearch` calls is at most that number. -/
theorem checks_only_when_needed (s : σ) :
    (∀ (pre : List Tweet) (tweet : Tweet),
      (tweet.CreatedAtTime = none ∨
        (∃ t, tweet.CreatedAtTime = some t ∧ (timeSince clock t
          (entryState clock whitelist api tweetAgeLimit interactionAgeLimit pre s)).1
            ≤ tweetAgeLimit) ∨
        isWhitelisted whitelist tweet.Id = true) →
      (entryTurn clock whitelist api tweetAgeLimit interactionAgeLimit pre tweet s).calls = []) ∧
    (∀ (tweet : Tweet) (u : σ), oldAndUnlisted clock whitelist tweetAgeLimit tweet u = true ↔
      ∃ t, tweet.CreatedAtTime = some t ∧ tweetAgeLimit < (timeSince clock t u).1 ∧
        isWhitelisted whitelist tweet.Id = false) ∧
    selfCalls (deleteFromTimeline clock whitelist api tweetAgeLimit interactionAgeLimit s).calls
      = oldAndUnlistedCount clock whitelist api tweetAgeLimit interactionAgeLimit
          (getTimeline api s).val.1 (getTimeline api s).st ∧
    searchCalls (deleteFromTimeline clock whitelist api tweetAgeLimit interactionAgeLimit s).calls
      ≤ oldAndUnlistedCount clock whitelist api tweetAgeLimit interactionAgeLimit
          (getTimeline api s).val.1 (getTimeline api s).st := by
  have hloop := deleteLoop_counts clock whitelist api tweetAgeLimit interactionAgeLimit
    (getTimeline api s).val.1 (getTimeline api s).st
  refine ⟨?_, oldAndUnlisted_iff clock whitelist tweetAgeLimit, ?_, ?_⟩
  · intro pre tweet h
    unfold entryTurn
    cases hp : tweet.CreatedAtTime with
    | none => rw [deleteStep_unparsable clock whitelist api _ _ tweet _ hp]
    | some t =>
      by_cases ho : tweetAgeLimit < (timeSince clock t
          (entryState clock whitelist api tweetAgeLimit interactionAgeLimit pre s)).1
      · rcases h with h | ⟨u, hu, hy⟩ | h
        · rw [hp] at h
          exact Option.noConfusion h
        · have hut : u = t := Option.some.inj (hu.symm.trans hp)
          subst hut
          exact absurd ho (not_lt.mpr hy)
        · rw [deleteStep_whitelisted clock whitelist api _ _ tweet _ t hp ho h]
      · rw [deleteStep_young clock whitelist api _ _ tweet _ t hp (not_lt.mp ho)]
  · simp only [deleteFromTimeline, selfCalls_append, getTimeline_calls, selfCalls]
    rw [hloop.1]
    omega
  · simp only [deleteFromTimeline, searchCalls_append, getTimeline_calls, searchCalls]
    rw [← hloop.1]
    omega

/-- C19, on an example: of five entries (a young post, an old one, one that
does not parse, a whitelisted one and another old one) two are old enough and
not whitelisted; the pass calls `GetSelf` twice and `GetSearch` twice. -/
theorem checks_only_when_needed_witness :
    oldAndUnlistedCount fixedClock ["5"] busyClient (7 * day) hour
      (getTimeline busyClient ()).val.1 (getTimeline busyClient ()).st = 2 ∧
    selfCalls (deleteFromTimeline fixedClock ["5"] busyClient (7 * day) hour ()).calls = 2 ∧
    searchCalls (deleteFromTimeline fixedClock ["5"] busyClient (7 * day) hour ()).calls ≤ 2 ∧
    (entryTurn fixedClock ["5"] busyClient (7 * day) hour [postAged 2 day, oldPost] garbledPost
      ()).calls = [] := by
  have h := checks_only_when_needed fixedClock ["5"] busyClient (7 * day) hour ()
  have hcount : oldAndUnlistedCount fixedClock ["5"] busyClient (7 * day) hour
      (getTimeline busyClient ()).val.1 (getTimeline busyClient ()).st = 2 := by decide
  exact ⟨hcount, h.2.2.1.trans hcount, hcount ▸ h.2.2.2,
    h.1 [postAged 2 day, oldPost] garbledPost (Or.inl (by decide))⟩

end size

/-! ## The trigger handler -/

section trigger

variable {σ : Type} (NewTwitterApi : String → String → String → String → TwitterAPIClient σ)
  (parse : String → Option Duration) (clock : σ → Time × σ)

theorem ParseDuration_error (s : String) (h : parse s = none) :
    (ParseDuration parse s).1 = 0 ∧ (ParseDuration parse s).2 ≠ none := by
  simp [ParseDuration, h]

/-- C20: `ephemeral` keeps only the duration that `time.ParseDuration`
returns.  When `MAX_TWEET_AGE` is not a duration the pass runs with
`tweetAgeLimit = 0`, and when `TWEET_INTERACTION_TIMEOUT` is not a duration it
runs with `interactionAgeLimit = 0`.  With `tweetAgeLimit = 0` the turn for an
entry that parses, has a strictly positive elapsed time, is not whitelisted
and has no ongoing interaction deletes it; with `interactionAgeLimit = 0` the
check returns false whenever no reply it measures has a negative elapsed time. -/
theorem ephemeral_ignores_parse_errors (g : Globals) (s : σ) :
    (parse g.maxTweetAge = none →
      ephemeral NewTwitterApi parse clock g s
        = deleteFromTimeline clock g.whitelist
            (NewTwitterApi g.consumerKey g.consumerSecret g.accessToken g.accessTokenSecret)
            0 (ParseDuration parse g.interactionTimeout).1 s) ∧
    (parse g.interactionTimeout = none →
      ephemeral NewTwitterApi parse clock g s
        = deleteFromTimeline clock g.whitelist
            (NewTwitterApi g.consumerKey g.consumerSecret g.accessToken g.accessTokenSecret)
            (ParseDuration parse g.maxTweetAge).1 0 s) ∧
    (∀ (whitelist : List String) (api : TwitterAPIClient σ) (interactionAgeLimit : Duration)
        (tweet : Tweet) (t : Time) (u : σ),
      tweet.CreatedAtTime = some t → 0 < (timeSince clock t u).1 →
      isWhitelisted whitelist tweet.Id = false →
      (hasOngoingInteractions clock api tweet.Id interactionAgeLimit
        (timeSince clock t u).2).val = false →
      Call.DeleteTweet tweet.Id true ∈
        (deleteStep clock whitelist api 0 interactionAgeLimit tweet u).calls) ∧
    (∀ (api : TwitterAPIClient σ) (tweetID : Int) (u : σ),
      (∀ p ∈ replyAges clock (getRepliesForTweet api tweetID u).val
        (getRepliesForTweet api tweetID u).st, 0 ≤ p.2) →
      (hasOngoingInteractions clock api tweetID 0 u).val = false) := by
  refine ⟨?_, ?_, ?_, ?_⟩
  · intro h
    simp only [ephemeral, (ParseDuration_error parse _ h).1]
  · intro h
    simp only [ephemeral, (ParseDuration_error parse _ h).1]
  · intro whitelist api interactionAgeLimit tweet t u ht hpos hnw hno
    exact (deleteStep_delete_iff clock whitelist api 0 interactionAgeLimit tweet u).2
      ⟨t, ht, hpos, hnw, hno⟩
  · intro api tweetID u hall
    rw [Bool.eq_false_iff]
    intro htrue
    obtain ⟨p, hp, hlt⟩ := (repliesLoop_true_iff clock 0 _ _).1 htrue
    exact absurd hlt (not_lt.mpr (hall p hp))

end trigger

/-- C20, on an example: `MAX_TWEET_AGE` is `7d`, which the table of durations
does not hold, and `TWEET_INTERACTION_TIMEOUT` is `1h`; the timeline is post 1,
exactly seven days old: the pass runs with a limit of 0 and deletes it. -/
theorem ephemeral_ignores_parse_errors_witness :
    tableParse "7d" = none ∧
    ephemeral (fun _ _ _ _ => brinkClient) tableParse fixedClock
        ⟨"key", "secret", "token", "tokensecret", "7d", "1h", []⟩ ()
      = deleteFromTimeline fixedClock [] brinkClient 0 hour () ∧
    deletedIds (ephemeral (fun _ _ _ _ => brinkClient) tableParse fixedClock
        ⟨"key", "secret", "token", "tokensecret", "7d", "1h", []⟩ ()).calls = [1] ∧
    deletedIds (deleteFromTimeline fixedClock [] brinkClient (7 * day) hour ()).calls = [] := by
  have h := (ephemeral_ignores_parse_errors (fun _ _ _ _ => brinkClient) tableParse fixedClock
    ⟨"key", "secret", "token", "tokensecret", "7d", "1h", []⟩ ()).1 (by decide)
  refine ⟨by decide, ?_, ?_, by decide⟩
  · rw [h]
    rfl
  · rw [h]
    decide

end Ephemeral
